import Mathlib

/-!
# noshared_ptr / noweak_ptr / locked_ptr (src/noshared.hpp)

A shallow embedding of the three handle types of namespace nstd and of the part of the
reference-counted storage primitive (std::shared_ptr, std::weak_ptr) they delegate to.

Conventions.
* A raw pointer is a natural number, 0 being nullptr.  Pointer conversions between
  statically convertible payload types keep the number (no sub-object offsets).
* A control block is named by the index at which it was allocated; indices are never reused,
  payload addresses may be reused once the payload has been deleted.  Where the address of a
  control block matters (owner_before) it is a parameter.
* Every handle variable of a program lives in a slot of the World; a destroyed variable leaves
  the empty handle in its slot, which is the state of a default-constructed variable.
* NSTD_ENABLE_WEAK_LOCK is not defined (the default), so noweak_ptr::lock is not part of the
  program.
* The header does not fix the language standard.  What line 96 does depends on whether the
  standard library declares the overload dynamic_pointer_cast(shared_ptr&&); both libraries
  are embedded (StdLib) and programs are run against either.
-/

namespace nstd

/-! ## The storage primitive -/

/-- Control blocks of the storage primitive, one column per field: the strong count
(use_count), the weak count and the pointer handed to the deleter. -/
structure Heap where
  next : Nat
  strong : Nat → Nat
  weak : Nat → Nat
  managed : Nat → Nat

/-- No control block has been allocated yet. -/
def Heap.init : Heap := ⟨0, fun _ => 0, fun _ => 0, fun _ => 0⟩

/-- One more strong reference on control block c. -/
def Heap.incStrong (h : Heap) (c : Nat) : Heap :=
  { h with strong := fun x => if x = c then h.strong x + 1 else h.strong x }

/-- One strong reference less on control block c; the payload is deleted when the count
reaches zero. -/
def Heap.decStrong (h : Heap) (c : Nat) : Heap :=
  { h with strong := fun x => if x = c then h.strong x - 1 else h.strong x }

/-- One more weak reference on control block c. -/
def Heap.incWeak (h : Heap) (c : Nat) : Heap :=
  { h with weak := fun x => if x = c then h.weak x + 1 else h.weak x }

/-- One weak reference less on control block c. -/
def Heap.decWeak (h : Heap) (c : Nat) : Heap :=
  { h with weak := fun x => if x = c then h.weak x - 1 else h.weak x }

/-- A raw pointer that new may return: not null and not the address of a payload that is
still alive. -/
def Heap.fresh (h : Heap) (p : Nat) : Prop :=
  p ≠ 0 ∧ ∀ c, c < h.next → 0 < h.strong c → h.managed c ≠ p

instance (h : Heap) (p : Nat) : Decidable (h.fresh p) := by
  unfold Heap.fresh; infer_instance

/-- Value of a std::shared_ptr: its control block, if any, and its stored pointer. -/
structure shared_ptr where
  cb : Option Nat
  ptr : Nat
deriving DecidableEq

/-- Value of a std::weak_ptr. -/
structure weak_ptr where
  cb : Option Nat
  ptr : Nat
deriving DecidableEq

namespace shared_ptr

/-- The default-constructed (and the moved-from) shared_ptr. -/
def empty : shared_ptr := ⟨none, 0⟩

/-- Member get(). -/
def get (s : shared_ptr) : Nat := s.ptr

/-- Conversion to bool: get() != nullptr. -/
def toBool (s : shared_ptr) : Bool := s.ptr != 0

/-- Member use_count(). -/
def use_count (h : Heap) (s : shared_ptr) : Nat :=
  match s.cb with
  | none => 0
  | some c => h.strong c

/-- Constructor shared_ptr(Y* p): allocates a control block owning p, also when p is null. -/
def fromRaw (h : Heap) (p : Nat) : Heap × shared_ptr :=
  ({ next := h.next + 1
     strong := fun x => if x = h.next then 1 else h.strong x
     weak := fun x => if x = h.next then 0 else h.weak x
     managed := fun x => if x = h.next then p else h.managed x },
   ⟨some h.next, p⟩)

/-- Copy constructor: the copy shares ownership. -/
def copy (h : Heap) (s : shared_ptr) : Heap × shared_ptr :=
  match s.cb with
  | none => (h, s)
  | some c => (h.incStrong c, s)

/-- Destructor. -/
def release (h : Heap) (s : shared_ptr) : Heap :=
  match s.cb with
  | none => h
  | some c => h.decStrong c

/-- Member reset(Y* p), which is shared_ptr(p).swap(*this). -/
def reset (h : Heap) (s : shared_ptr) (p : Nat) : Heap × shared_ptr :=
  let r := fromRaw h p
  (release r.1 s, r.2)

end shared_ptr

namespace weak_ptr

/-- The default-constructed weak_ptr. -/
def empty : weak_ptr := ⟨none, 0⟩

/-- Constructor weak_ptr(const shared_ptr&). -/
def fromShared (h : Heap) (s : shared_ptr) : Heap × weak_ptr :=
  match s.cb with
  | none => (h, ⟨none, s.ptr⟩)
  | some c => (h.incWeak c, ⟨some c, s.ptr⟩)

/-- Copy constructor. -/
def copy (h : Heap) (w : weak_ptr) : Heap × weak_ptr :=
  match w.cb with
  | none => (h, w)
  | some c => (h.incWeak c, w)

/-- Destructor. -/
def release (h : Heap) (w : weak_ptr) : Heap :=
  match w.cb with
  | none => h
  | some c => h.decWeak c

/-- Member use_count(). -/
def use_count (h : Heap) (w : weak_ptr) : Nat :=
  match w.cb with
  | none => 0
  | some c => h.strong c

/-- Member expired(): use_count() == 0. -/
def expired (h : Heap) (w : weak_ptr) : Bool := use_count h w == 0

/-- Member lock(): expired() ? shared_ptr() : shared_ptr(*this). -/
def lock (h : Heap) (w : weak_ptr) : Heap × shared_ptr :=
  if expired h w then (h, shared_ptr.empty)
  else
    match w.cb with
    | none => (h, shared_ptr.empty)
    | some c => (h.incStrong c, ⟨some c, w.ptr⟩)

/-- Address of the control block of a handle, addr giving the address at which each allocated
control block lives; a handle without control block has the null address. -/
def blockAddr (addr : Nat → Nat) : Option Nat → Nat
  | none => 0
  | some c => addr c

/-- Member owner_before: compares the addresses of the control blocks. -/
def owner_before (addr : Nat → Nat) (a b : weak_ptr) : Bool :=
  decide (blockAddr addr a.cb < blockAddr addr b.cb)

end weak_ptr

/-- The cast dynamic_cast to T1* of p, where isa tells whether the payload at an address is a
T1: null for a null pointer and for a payload that is not a T1. -/
def dynamic_cast (isa : Nat → Bool) (p : Nat) : Nat :=
  if p ≠ 0 ∧ isa p = true then p else 0

/-- The standard library a program is built against, as far as line 96 can tell:
constRefOnly declares only dynamic_pointer_cast(const shared_ptr&) (libstdc++ and libc++
before C++20), withRvalue also declares dynamic_pointer_cast(shared_ptr&&) (C++20). -/
inductive StdLib where
  | constRefOnly
  | withRvalue
deriving DecidableEq

/-- The call std::dynamic_pointer_cast(std::move(r)) of line 96.  When the cast yields null
the result is empty and r is not modified, with either library.  When it yields a non-null
pointer p: with the overload taking shared_ptr&& the result shared_ptr(std::move(r), p) takes
the control block over and r is left empty; without it the argument binds to the overload
taking const shared_ptr&, whose result shared_ptr(r, p) shares the control block (one more
strong reference) and r is not modified.  Returns the heap, the result and r afterwards. -/
def std_dynamic_pointer_cast (lib : StdLib) (isa : Nat → Bool) (h : Heap) (r : shared_ptr) :
    Heap × shared_ptr × shared_ptr :=
  let p := dynamic_cast isa r.get
  if p ≠ 0 then
    match lib with
    | .withRvalue => (h, ⟨r.cb, p⟩, shared_ptr.empty)
    | .constRefOnly => ((shared_ptr.copy h ⟨r.cb, p⟩).1, ⟨r.cb, p⟩, r)
  else (h, shared_ptr.empty, r)

/-! ## The three handle types -/

/-- Class noshared_ptr: its only member is sptr_. -/
structure noshared_ptr where
  sptr_ : shared_ptr
deriving DecidableEq

/-- Class noweak_ptr: its only member is wptr_. -/
structure noweak_ptr where
  wptr_ : weak_ptr
deriving DecidableEq

/-- Class locked_ptr: its only member is sptr_. -/
structure locked_ptr where
  sptr_ : shared_ptr
deriving DecidableEq

namespace noshared_ptr

/-- Constructors noshared_ptr() and noshared_ptr(nullptr_t): sptr_(). -/
def default : noshared_ptr := ⟨shared_ptr.empty⟩

/-- Constructor noshared_ptr(pointer ptr): sptr_(ptr). -/
def construct (h : Heap) (p : Nat) : Heap × noshared_ptr :=
  let r := shared_ptr.fromRaw h p
  (r.1, ⟨r.2⟩)

/-- Constructor noshared_ptr(noshared_ptr&& right): sptr_(std::move(right.sptr_)).
Returns the new handle and right afterwards. -/
def move_construct (right : noshared_ptr) : noshared_ptr × noshared_ptr :=
  (⟨right.sptr_⟩, ⟨shared_ptr.empty⟩)

/-- Private constructor noshared_ptr(const shared_ptr& right): sptr_(right), a copy. -/
def from_shared (h : Heap) (right : shared_ptr) : Heap × noshared_ptr :=
  let r := shared_ptr.copy h right
  (r.1, ⟨r.2⟩)

/-- Member swap: returns this and right afterwards. -/
def swap (this right : noshared_ptr) : noshared_ptr × noshared_ptr :=
  (⟨right.sptr_⟩, ⟨this.sptr_⟩)

/-- Destructor. -/
def destroy (h : Heap) (this : noshared_ptr) : Heap :=
  shared_ptr.release h this.sptr_

/-- Member get(). -/
def get (this : noshared_ptr) : Nat := this.sptr_.get

/-- Conversion to bool. -/
def toBool (this : noshared_ptr) : Bool := this.sptr_.toBool

/-- Member reset(pointer ptr = nullptr): sptr_.reset(ptr). -/
def reset (h : Heap) (this : noshared_ptr) (p : Nat) : Heap × noshared_ptr :=
  let r := shared_ptr.reset h this.sptr_ p
  (r.1, ⟨r.2⟩)

end noshared_ptr

/-- Function dynamic_pointer_cast(noshared_ptr&& other), lines 94-98: the primitive cast of
std::move(other.sptr_) is bound to a const reference, the result is built from it by the
copying private constructor, and the temporary is destroyed on return.  Returns the heap,
the result and other afterwards. -/
def dynamic_pointer_cast (lib : StdLib) (isa : Nat → Bool) (h : Heap) (other : noshared_ptr) :
    Heap × noshared_ptr × noshared_ptr :=
  let c := std_dynamic_pointer_cast lib isa h other.sptr_
  let r := noshared_ptr.from_shared c.1 c.2.1
  (shared_ptr.release r.1 c.2.1, r.2, ⟨c.2.2⟩)

/-- Function make_noshared: noshared_ptr(new T(args)), p being the address new returned. -/
def make_noshared (h : Heap) (p : Nat) : Heap × noshared_ptr :=
  noshared_ptr.construct h p

namespace noweak_ptr

/-- Constructor noweak_ptr(): wptr_(). -/
def default : noweak_ptr := ⟨weak_ptr.empty⟩

/-- Constructor noweak_ptr(const noweak_ptr& other): wptr_(other.wptr_). -/
def copy_construct (h : Heap) (other : noweak_ptr) : Heap × noweak_ptr :=
  let r := weak_ptr.copy h other.wptr_
  (r.1, ⟨r.2⟩)

/-- Constructor noweak_ptr(const noshared_ptr& other): wptr_(other.sptr_). -/
def from_noshared (h : Heap) (other : noshared_ptr) : Heap × noweak_ptr :=
  let r := weak_ptr.fromShared h other.sptr_
  (r.1, ⟨r.2⟩)

/-- Constructor noweak_ptr(const locked_ptr& other): wptr_(other.sptr_). -/
def from_locked (h : Heap) (other : locked_ptr) : Heap × noweak_ptr :=
  let r := weak_ptr.fromShared h other.sptr_
  (r.1, ⟨r.2⟩)

/-- Constructor noweak_ptr(noweak_ptr&& other): returns the new handle and other
afterwards. -/
def move_construct (other : noweak_ptr) : noweak_ptr × noweak_ptr :=
  (⟨other.wptr_⟩, ⟨weak_ptr.empty⟩)

/-- Member swap: returns this and other afterwards. -/
def swap (this other : noweak_ptr) : noweak_ptr × noweak_ptr :=
  (⟨other.wptr_⟩, ⟨this.wptr_⟩)

/-- Destructor. -/
def destroy (h : Heap) (this : noweak_ptr) : Heap :=
  weak_ptr.release h this.wptr_

/-- Member expired(): wptr_.expired(). -/
def expired (h : Heap) (this : noweak_ptr) : Bool :=
  weak_ptr.expired h this.wptr_

/-- Member owner_before: wptr_.owner_before(right.wptr_). -/
def owner_before (addr : Nat → Nat) (this right : noweak_ptr) : Bool :=
  weak_ptr.owner_before addr this.wptr_ right.wptr_

end noweak_ptr

namespace locked_ptr

/-- Constructor locked_ptr(const noweak_ptr& wptr): sptr_(wptr.wptr_.lock()). -/
def construct (h : Heap) (wptr : noweak_ptr) : Heap × locked_ptr :=
  let r := weak_ptr.lock h wptr.wptr_
  (r.1, ⟨r.2⟩)

/-- Member get(). -/
def get (this : locked_ptr) : Nat := this.sptr_.get

/-- Conversion to bool. -/
def toBool (this : locked_ptr) : Bool := this.sptr_.toBool

/-- Member reset(pointer ptr = nullptr): sptr_.reset(ptr). -/
def reset (h : Heap) (this : locked_ptr) (p : Nat) : Heap × locked_ptr :=
  let r := shared_ptr.reset h this.sptr_ p
  (r.1, ⟨r.2⟩)

/-- Destructor. -/
def destroy (h : Heap) (this : locked_ptr) : Heap :=
  shared_ptr.release h this.sptr_

end locked_ptr

/-! ## Comparison operators (lines 145-163, 386-404, 448-466) -/

/-- Operator == of a noshared_ptr and nullptr: !left. -/
def noshared_eq_null (left : noshared_ptr) : Bool := !left.toBool

/-- Operator == of nullptr and a noshared_ptr: !right. -/
def null_eq_noshared (right : noshared_ptr) : Bool := !right.toBool

/-- Operator != of a noshared_ptr and nullptr. -/
def noshared_ne_null (left : noshared_ptr) : Bool := !noshared_eq_null left

/-- Operator != of nullptr and a noshared_ptr. -/
def null_ne_noshared (right : noshared_ptr) : Bool := !null_eq_noshared right

/-- Operator == of a locked_ptr and nullptr: !left. -/
def locked_eq_null (left : locked_ptr) : Bool := !left.toBool

/-- Operator == of nullptr and a locked_ptr: !right. -/
def null_eq_locked (right : locked_ptr) : Bool := !right.toBool

/-- Operator != of a locked_ptr and nullptr. -/
def locked_ne_null (left : locked_ptr) : Bool := !locked_eq_null left

/-- Operator != of nullptr and a locked_ptr. -/
def null_ne_locked (right : locked_ptr) : Bool := !null_eq_locked right

/-- Operator == of a locked_ptr and a noshared_ptr: left.get() == right.get(). -/
def locked_eq_noshared (left : locked_ptr) (right : noshared_ptr) : Bool :=
  left.get == right.get

/-- Operator == of a noshared_ptr and a locked_ptr: left.get() == right.get(). -/
def noshared_eq_locked (left : noshared_ptr) (right : locked_ptr) : Bool :=
  left.get == right.get

/-- Operator != of a locked_ptr and a noshared_ptr. -/
def locked_ne_noshared (left : locked_ptr) (right : noshared_ptr) : Bool :=
  !locked_eq_noshared left right

/-- Operator != of a noshared_ptr and a locked_ptr. -/
def noshared_ne_locked (left : noshared_ptr) (right : locked_ptr) : Bool :=
  !noshared_eq_locked left right

/-! ## Programs: handle variables in slots, one step per public operation -/

/-- State of a program: the control blocks and the handle variables of each of the three
types, each variable named by its slot. -/
structure World where
  heap : Heap
  ns : List noshared_ptr
  wk : List noweak_ptr
  lk : List locked_ptr

/-- The program that has declared nothing yet. -/
def World.init : World := ⟨Heap.init, [], [], []⟩

/-- The noshared_ptr variable in slot i. -/
def World.nsGet (w : World) (i : Nat) : noshared_ptr := w.ns[i]?.getD noshared_ptr.default

/-- The noweak_ptr variable in slot k. -/
def World.wkGet (w : World) (k : Nat) : noweak_ptr := w.wk[k]?.getD noweak_ptr.default

/-- The locked_ptr variable in slot l. -/
def World.lkGet (w : World) (l : Nat) : locked_ptr := w.lk[l]?.getD ⟨shared_ptr.empty⟩

/-- The public operations, on variables named by their slots.  An operation that declares a
variable puts it in the next free slot of its type. -/
inductive Op where
  | ns_default
  | ns_construct (p : Nat)
  | make_noshared (p : Nat)
  | ns_move_construct (src : Nat)
  | ns_move_assign (dst src : Nat)
  | ns_assign_null (i : Nat)
  | ns_reset (i p : Nat)
  | ns_swap (i j : Nat)
  | ns_destroy (i : Nat)
  | ns_dynamic_cast (src : Nat) (isa : Bool)
  | wk_default
  | wk_copy (k : Nat)
  | wk_from_noshared (i : Nat)
  | wk_from_locked (l : Nat)
  | wk_move_construct (k : Nat)
  | wk_assign (dst src : Nat)
  | wk_move_assign (dst src : Nat)
  | wk_assign_noshared (dst i : Nat)
  | wk_reset (k : Nat)
  | wk_swap (k j : Nat)
  | wk_destroy (k : Nat)
  | lk_construct (k : Nat)
  | lk_reset (l p : Nat)
  | lk_destroy (l : Nat)
deriving DecidableEq

/-- Declaration noshared_ptr x; or x(nullptr). -/
def World.ns_default (w : World) : World :=
  { w with ns := w.ns ++ [noshared_ptr.default] }

/-- Declaration noshared_ptr x(p). -/
def World.ns_construct (w : World) (p : Nat) : World :=
  let r := noshared_ptr.construct w.heap p
  { w with heap := r.1, ns := w.ns ++ [r.2] }

/-- Declaration auto x = make_noshared(...), new having returned p. -/
def World.make_noshared (w : World) (p : Nat) : World :=
  let r := nstd.make_noshared w.heap p
  { w with heap := r.1, ns := w.ns ++ [r.2] }

/-- Declaration noshared_ptr x(std::move(ns[src])). -/
def World.ns_move_construct (w : World) (src : Nat) : World :=
  let r := noshared_ptr.move_construct (w.nsGet src)
  { w with ns := w.ns.set src r.2 ++ [r.1] }

/-- Assignment ns[dst] = std::move(ns[src]), lines 46-49: a temporary is move-constructed
from the right side, swapped with the left side and destroyed. -/
def World.ns_move_assign (w : World) (dst src : Nat) : World :=
  let m := noshared_ptr.move_construct (w.nsGet src)
  let w1 : World := { w with ns := w.ns.set src m.2 }
  let s := noshared_ptr.swap m.1 (w1.nsGet dst)
  { w1 with heap := noshared_ptr.destroy w1.heap s.1, ns := w1.ns.set dst s.2 }

/-- Call ns[i].reset(p). -/
def World.ns_reset (w : World) (i p : Nat) : World :=
  let r := noshared_ptr.reset w.heap (w.nsGet i) p
  { w with heap := r.1, ns := w.ns.set i r.2 }

/-- Assignment ns[i] = nullptr, lines 24-27: reset(). -/
def World.ns_assign_null (w : World) (i : Nat) : World :=
  w.ns_reset i 0

/-- Call ns[i].swap(ns[j]). -/
def World.ns_swap (w : World) (i j : Nat) : World :=
  let s := noshared_ptr.swap (w.nsGet i) (w.nsGet j)
  { w with ns := (w.ns.set i s.1).set j s.2 }

/-- End of the lifetime of ns[i]. -/
def World.ns_destroy (w : World) (i : Nat) : World :=
  { w with heap := noshared_ptr.destroy w.heap (w.nsGet i),
           ns := w.ns.set i noshared_ptr.default }

/-- Declaration auto x = dynamic_pointer_cast(std::move(ns[src])). -/
def World.ns_dynamic_cast (lib : StdLib) (w : World) (src : Nat) (isa : Nat → Bool) : World :=
  let r := dynamic_pointer_cast lib isa w.heap (w.nsGet src)
  { w with heap := r.1, ns := w.ns.set src r.2.2 ++ [r.2.1] }

/-- Declaration noweak_ptr x. -/
def World.wk_default (w : World) : World :=
  { w with wk := w.wk ++ [noweak_ptr.default] }

/-- Declaration noweak_ptr x(wk[k]). -/
def World.wk_copy (w : World) (k : Nat) : World :=
  let r := noweak_ptr.copy_construct w.heap (w.wkGet k)
  { w with heap := r.1, wk := w.wk ++ [r.2] }

/-- Declaration noweak_ptr x(ns[i]). -/
def World.wk_from_noshared (w : World) (i : Nat) : World :=
  let r := noweak_ptr.from_noshared w.heap (w.nsGet i)
  { w with heap := r.1, wk := w.wk ++ [r.2] }

/-- Declaration noweak_ptr x(lk[l]). -/
def World.wk_from_locked (w : World) (l : Nat) : World :=
  let r := noweak_ptr.from_locked w.heap (w.lkGet l)
  { w with heap := r.1, wk := w.wk ++ [r.2] }

/-- Declaration noweak_ptr x(std::move(wk[k])). -/
def World.wk_move_construct (w : World) (k : Nat) : World :=
  let r := noweak_ptr.move_construct (w.wkGet k)
  { w with wk := w.wk.set k r.2 ++ [r.1] }

/-- Assignment wk[dst] = wk[src], lines 251-254: noweak_ptr(right).swap(*this). -/
def World.wk_assign (w : World) (dst src : Nat) : World :=
  let c := noweak_ptr.copy_construct w.heap (w.wkGet src)
  let s := noweak_ptr.swap c.2 (w.wkGet dst)
  { w with heap := noweak_ptr.destroy c.1 s.1, wk := w.wk.set dst s.2 }

/-- Assignment wk[dst] = std::move(wk[src]), lines 262-265. -/
def World.wk_move_assign (w : World) (dst src : Nat) : World :=
  let m := noweak_ptr.move_construct (w.wkGet src)
  let w1 : World := { w with wk := w.wk.set src m.2 }
  let s := noweak_ptr.swap m.1 (w1.wkGet dst)
  { w1 with heap := noweak_ptr.destroy w1.heap s.1, wk := w1.wk.set dst s.2 }

/-- Assignment wk[dst] = ns[i], lines 273-277. -/
def World.wk_assign_noshared (w : World) (dst i : Nat) : World :=
  let c := noweak_ptr.from_noshared w.heap (w.nsGet i)
  let s := noweak_ptr.swap c.2 (w.wkGet dst)
  { w with heap := noweak_ptr.destroy c.1 s.1, wk := w.wk.set dst s.2 }

/-- Call wk[k].reset(), lines 279-281: an empty temporary is swapped in and destroyed. -/
def World.wk_reset (w : World) (k : Nat) : World :=
  let s := noweak_ptr.swap noweak_ptr.default (w.wkGet k)
  { w with heap := noweak_ptr.destroy w.heap s.1, wk := w.wk.set k s.2 }

/-- Call wk[k].swap(wk[j]). -/
def World.wk_swap (w : World) (k j : Nat) : World :=
  let s := noweak_ptr.swap (w.wkGet k) (w.wkGet j)
  { w with wk := (w.wk.set k s.1).set j s.2 }

/-- End of the lifetime of wk[k]. -/
def World.wk_destroy (w : World) (k : Nat) : World :=
  { w with heap := noweak_ptr.destroy w.heap (w.wkGet k),
           wk := w.wk.set k noweak_ptr.default }

/-- Declaration locked_ptr x(wk[k]). -/
def World.lk_construct (w : World) (k : Nat) : World :=
  let r := locked_ptr.construct w.heap (w.wkGet k)
  { w with heap := r.1, lk := w.lk ++ [r.2] }

/-- Call lk[l].reset(p). -/
def World.lk_reset (w : World) (l p : Nat) : World :=
  let r := locked_ptr.reset w.heap (w.lkGet l) p
  { w with heap := r.1, lk := w.lk.set l r.2 }

/-- End of the lifetime of lk[l]. -/
def World.lk_destroy (w : World) (l : Nat) : World :=
  { w with heap := locked_ptr.destroy w.heap (w.lkGet l),
           lk := w.lk.set l ⟨shared_ptr.empty⟩ }

/-- One public operation, in a program built against lib. -/
def World.step (lib : StdLib) (w : World) : Op → World
  | .ns_default => w.ns_default
  | .ns_construct p => w.ns_construct p
  | .make_noshared p => w.make_noshared p
  | .ns_move_construct src => w.ns_move_construct src
  | .ns_move_assign dst src => w.ns_move_assign dst src
  | .ns_assign_null i => w.ns_assign_null i
  | .ns_reset i p => w.ns_reset i p
  | .ns_swap i j => w.ns_swap i j
  | .ns_destroy i => w.ns_destroy i
  | .ns_dynamic_cast src isa => w.ns_dynamic_cast lib src (fun _ => isa)
  | .wk_default => w.wk_default
  | .wk_copy k => w.wk_copy k
  | .wk_from_noshared i => w.wk_from_noshared i
  | .wk_from_locked l => w.wk_from_locked l
  | .wk_move_construct k => w.wk_move_construct k
  | .wk_assign dst src => w.wk_assign dst src
  | .wk_move_assign dst src => w.wk_move_assign dst src
  | .wk_assign_noshared dst i => w.wk_assign_noshared dst i
  | .wk_reset k => w.wk_reset k
  | .wk_swap k j => w.wk_swap k j
  | .wk_destroy k => w.wk_destroy k
  | .lk_construct k => w.lk_construct k
  | .lk_reset l p => w.lk_reset l p
  | .lk_destroy l => w.lk_destroy l

/-- What a program may do in state w: name existing variables, and hand over raw pointers
that are null or fresh (make_noshared: fresh). -/
def Op.ok (w : World) : Op → Prop
  | .ns_default => True
  | .ns_construct p => p = 0 ∨ w.heap.fresh p
  | .make_noshared p => w.heap.fresh p
  | .ns_move_construct src => src < w.ns.length
  | .ns_move_assign dst src => dst < w.ns.length ∧ src < w.ns.length
  | .ns_assign_null i => i < w.ns.length
  | .ns_reset i p => i < w.ns.length ∧ (p = 0 ∨ w.heap.fresh p)
  | .ns_swap i j => i < w.ns.length ∧ j < w.ns.length
  | .ns_destroy i => i < w.ns.length
  | .ns_dynamic_cast src _ => src < w.ns.length
  | .wk_default => True
  | .wk_copy k => k < w.wk.length
  | .wk_from_noshared i => i < w.ns.length
  | .wk_from_locked l => l < w.lk.length
  | .wk_move_construct k => k < w.wk.length
  | .wk_assign dst src => dst < w.wk.length ∧ src < w.wk.length
  | .wk_move_assign dst src => dst < w.wk.length ∧ src < w.wk.length
  | .wk_assign_noshared dst i => dst < w.wk.length ∧ i < w.ns.length
  | .wk_reset k => k < w.wk.length
  | .wk_swap k j => k < w.wk.length ∧ j < w.wk.length
  | .wk_destroy k => k < w.wk.length
  | .lk_construct k => k < w.wk.length
  | .lk_reset l p => l < w.lk.length ∧ (p = 0 ∨ w.heap.fresh p)
  | .lk_destroy l => l < w.lk.length

instance (w : World) (op : Op) : Decidable (op.ok w) := by
  cases op <;> unfold Op.ok <;> infer_instance

/-- Runs a program built against lib from a state. -/
def World.run (lib : StdLib) (w : World) : List Op → World
  | [] => w
  | op :: ops => (w.step lib op).run lib ops

/-- Every operation of the program is allowed in the state in which it runs. -/
def World.allOk (lib : StdLib) (w : World) : List Op → Prop
  | [] => True
  | op :: ops => op.ok w ∧ (w.step lib op).allOk lib ops

instance (lib : StdLib) (w : World) (ops : List Op) : Decidable (w.allOk lib ops) := by
  induction ops generalizing w with
  | nil => unfold World.allOk; infer_instance
  | cons op ops ih =>
    unfold World.allOk
    exact @instDecidableAnd _ _ _ (ih _)

/-- States a program built against lib can reach through the public operations. -/
inductive Reachable (lib : StdLib) : World → Prop where
  | init : Reachable lib World.init
  | step (w : World) (op : Op) : Reachable lib w → op.ok w → Reachable lib (w.step lib op)

/-! ## Counting the strong handles of a control block -/

/-- Number of the handles in l whose control block, read by f, is c. -/
def refs {α : Type} (f : α → Option Nat) (c : Nat) (l : List α) : Nat :=
  l.countP (fun s => decide (f s = some c))

/-- One if the control block is c, zero otherwise. -/
def ind (o : Option Nat) (c : Nat) : Nat := if o = some c then 1 else 0

/-- Stored pointer ptr agrees with control block cb: null without a control block, the
managed pointer otherwise. -/
def Coh (h : Heap) (cb : Option Nat) (ptr : Nat) : Prop :=
  match cb with
  | none => ptr = 0
  | some c => ptr = h.managed c

/-! ## Invariant of the reachable states: definitions -/

/-- Control block of a noshared_ptr. -/
def nsCb (s : noshared_ptr) : Option Nat := s.sptr_.cb

/-- Control block of a locked_ptr. -/
def lkCb (s : locked_ptr) : Option Nat := s.sptr_.cb

/-- Live payloads have pairwise distinct addresses. -/
def AddrOk (h : Heap) : Prop :=
  ∀ c d, 0 < h.strong c → 0 < h.strong d → h.managed c = h.managed d → h.managed c ≠ 0 → c = d

/-- Bookkeeping invariant of the states reachable against lib; that a control block has at
most one noshared_ptr is part of it only with the overload taking shared_ptr&&. -/
structure Inv (lib : StdLib) (w : World) : Prop where
  count : ∀ c, w.heap.strong c = refs nsCb c w.ns + refs lkCb c w.lk
  bound : ∀ c, w.heap.next ≤ c → w.heap.strong c = 0
  wkBound : ∀ v ∈ w.wk, ∀ c, v.wptr_.cb = some c → c < w.heap.next
  unique : lib = .withRvalue → ∀ c, refs nsCb c w.ns ≤ 1
  nsPtr : ∀ v ∈ w.ns, Coh w.heap v.sptr_.cb v.sptr_.ptr
  lkPtr : ∀ v ∈ w.lk, Coh w.heap v.sptr_.cb v.sptr_.ptr
  wkPtr : ∀ v ∈ w.wk, Coh w.heap v.wptr_.cb v.wptr_.ptr
  addr : AddrOk w.heap

/-- Heaps that differ in their weak counts only. -/
def SameOwners (h h1 : Heap) : Prop :=
  h1.next = h.next ∧ h1.strong = h.strong ∧ h1.managed = h.managed

/-- A weak handle value that the invariant allows in state w. -/
def WkOk (w : World) (v : noweak_ptr) : Prop :=
  (∀ c, v.wptr_.cb = some c → c < w.heap.next) ∧ Coh w.heap v.wptr_.cb v.wptr_.ptr

/-- Operations on noweak_ptr variables only. -/
def Op.weakOnly : Op → Bool
  | .wk_default => true
  | .wk_copy _ => true
  | .wk_move_construct _ => true
  | .wk_assign _ _ => true
  | .wk_move_assign _ _ => true
  | .wk_reset _ => true
  | .wk_swap _ _ => true
  | .wk_destroy _ => true
  | _ => false

/-- Scenario of the specification: a strong handle, a weak handle observing it, a promotion
that goes out of scope, a reset of the strong handle and a second promotion. -/
def scenario : List Op :=
  [.ns_construct 7, .wk_from_noshared 0, .lk_construct 0, .lk_destroy 0, .ns_reset 0 0,
   .lk_construct 0]

/-- A strong handle moved into a second one and then cast, with two observers and a live
promotion. -/
def castProgram : List Op :=
  [.make_noshared 7, .wk_from_noshared 0, .wk_copy 0, .ns_move_construct 0,
   .ns_dynamic_cast 1 true, .lk_construct 1]

/-! ## Lemmas on counting and on slots -/

theorem ind_le_one (o : Option Nat) (c : Nat) : ind o c ≤ 1 := by
  unfold ind; split <;> omega

theorem ind_none (c : Nat) : ind none c = 0 := by simp [ind]

theorem ind_some (x c : Nat) : ind (some x) c = if x = c then 1 else 0 := by simp [ind]

theorem refs_nil {α : Type} (f : α → Option Nat) (c : Nat) : refs f c [] = 0 := by
  simp [refs]

theorem refs_cons {α : Type} (f : α → Option Nat) (c : Nat) (a : α) (l : List α) :
    refs f c (a :: l) = refs f c l + ind (f a) c := by
  simp [refs, ind, List.countP_cons]

theorem refs_push {α : Type} (f : α → Option Nat) (c : Nat) (l : List α) (v : α) :
    refs f c (l ++ [v]) = refs f c l + ind (f v) c := by
  simp [refs, ind, List.countP_append, List.countP_cons]

theorem refs_set {α : Type} (f : α → Option Nat) (c : Nat) (d v : α) :
    ∀ (l : List α) (i : Nat), i < l.length →
      refs f c (l.set i v) + ind (f (l[i]?.getD d)) c = refs f c l + ind (f v) c := by
  intro l
  induction l with
  | nil => intro i hi; simp at hi
  | cons a l ih =>
    intro i hi
    cases i with
    | zero => simp [refs_cons]; omega
    | succ i =>
      have := ih i (by simpa using hi)
      simp [refs_cons] at this ⊢
      omega

theorem getD_mem {α : Type} (d : α) (l : List α) (i : Nat) (hi : i < l.length) :
    l[i]?.getD d ∈ l := by
  rw [List.getElem?_eq_getElem hi]
  simp

theorem getD_set {α : Type} (d v : α) (l : List α) (i j : Nat) :
    (l.set i v)[j]?.getD d = if i = j ∧ i < l.length then v else l[j]?.getD d := by
  rw [List.getElem?_set]
  by_cases h : i = j
  · subst h
    by_cases h2 : i < l.length
    · simp [h2]
    · have : l[i]? = none := by simp; omega
      simp [h2, this]
  · simp [h]

theorem getD_push {α : Type} (d v : α) (l : List α) : (l ++ [v])[l.length]?.getD d = v := by
  simp

theorem getD_push_lt {α : Type} (d v : α) (l : List α) (i : Nat) (hi : i < l.length) :
    (l ++ [v])[i]?.getD d = l[i]?.getD d := by
  simp [List.getElem?_append, hi]

theorem ind_getD_le {α : Type} (f : α → Option Nat) (c : Nat) (d : α) (l : List α) (i : Nat)
    (hi : i < l.length) : ind (f (l[i]?.getD d)) c ≤ refs f c l := by
  by_cases hc : f (l[i]?.getD d) = some c
  · have hm := getD_mem d l i hi
    have : 0 < refs f c l := by
      unfold refs
      rw [List.countP_pos_iff]
      exact ⟨_, hm, by simpa using hc⟩
    have := ind_le_one (f (l[i]?.getD d)) c
    omega
  · have : ind (f (l[i]?.getD d)) c = 0 := by simp [ind, hc]
    omega

theorem two_le_refs {α : Type} (f : α → Option Nat) (c : Nat) (d e : α) (he : f e = none)
    (l : List α) (i j : Nat) (hi : i < l.length) (hj : j < l.length) (hij : i ≠ j)
    (h1 : f (l[i]?.getD d) = some c) (h2 : f (l[j]?.getD d) = some c) : 2 ≤ refs f c l := by
  have a := refs_set f c d e l i hi
  have b := ind_getD_le f c d (l.set i e) j (by simpa using hj)
  rw [getD_set] at b
  rw [if_neg (by intro h; exact hij h.1)] at b
  rw [h1, he] at a
  rw [h2] at b
  simp only [ind] at a b
  simp at a b
  omega

theorem refs_pos_of_mem {α : Type} (f : α → Option Nat) (c : Nat) (l : List α) (v : α)
    (hv : v ∈ l) (hc : f v = some c) : 0 < refs f c l := by
  unfold refs
  rw [List.countP_pos_iff]
  exact ⟨v, hv, by simpa using hc⟩

theorem Inv.nsLt {lib : StdLib} {w : World} (I :
    Inv lib w) (v : noshared_ptr) (hv : v ∈ w.ns) (c : Nat)
    (hc : v.sptr_.cb = some c) : c < w.heap.next := by
  by_contra h
  have h1 := I.bound c (by omega)
  have h2 := I.count c
  have h3 := refs_pos_of_mem nsCb c w.ns v hv hc
  omega

theorem Inv.lkLt {lib : StdLib} {w : World} (I :
    Inv lib w) (v : locked_ptr) (hv : v ∈ w.lk) (c : Nat)
    (hc : v.sptr_.cb = some c) : c < w.heap.next := by
  by_contra h
  have h1 := I.bound c (by omega)
  have h2 := I.count c
  have h3 := refs_pos_of_mem lkCb c w.lk v hv hc
  omega

theorem Inv.init (lib : StdLib) : Inv lib World.init := by
  constructor <;> simp [World.init, Heap.init, refs, AddrOk]

theorem Coh_alloc (h : Heap) (p : Nat) (cb : Option Nat) (ptr : Nat)
    (hlt : ∀ c, cb = some c → c < h.next) (hc : Coh h cb ptr) :
    Coh (shared_ptr.fromRaw h p).1 cb ptr := by
  cases cb with
  | none => simpa [Coh] using hc
  | some c =>
    have := hlt c rfl
    simp only [Coh, shared_ptr.fromRaw] at hc ⊢
    rw [if_neg (by omega)]
    exact hc

/-! ### Effect of the primitive on the strong counts -/

theorem release_strong (h : Heap) (s : shared_ptr) (c : Nat) :
    (shared_ptr.release h s).strong c = h.strong c - ind s.cb c := by
  cases hcb : s.cb with
  | none => simp [shared_ptr.release, hcb, ind]
  | some x =>
    simp only [shared_ptr.release, hcb, Heap.decStrong, ind_some]
    by_cases hx : c = x
    · simp [hx]
    · simp [hx, Ne.symm hx]

theorem release_next (h : Heap) (s : shared_ptr) : (shared_ptr.release h s).next = h.next := by
  cases hcb : s.cb <;> simp [shared_ptr.release, hcb, Heap.decStrong]

theorem release_managed (h : Heap) (s : shared_ptr) :
    (shared_ptr.release h s).managed = h.managed := by
  cases hcb : s.cb <;> simp [shared_ptr.release, hcb, Heap.decStrong]

theorem copy_strong (h : Heap) (s : shared_ptr) (c : Nat) :
    (shared_ptr.copy h s).1.strong c = h.strong c + ind s.cb c := by
  cases hcb : s.cb with
  | none => simp [shared_ptr.copy, hcb, ind]
  | some x =>
    simp only [shared_ptr.copy, hcb, Heap.incStrong, ind_some]
    by_cases hx : c = x
    · simp [hx]
    · simp [hx, Ne.symm hx]

theorem copy_next (h : Heap) (s : shared_ptr) : (shared_ptr.copy h s).1.next = h.next := by
  cases hcb : s.cb <;> simp [shared_ptr.copy, hcb, Heap.incStrong]

theorem copy_managed (h : Heap) (s : shared_ptr) :
    (shared_ptr.copy h s).1.managed = h.managed := by
  cases hcb : s.cb <;> simp [shared_ptr.copy, hcb, Heap.incStrong]

theorem copy_val (h : Heap) (s : shared_ptr) : (shared_ptr.copy h s).2 = s := by
  cases hcb : s.cb <;> simp [shared_ptr.copy, hcb]

theorem fromRaw_strong (h : Heap) (p c : Nat) :
    (shared_ptr.fromRaw h p).1.strong c = if c = h.next then 1 else h.strong c := rfl

theorem fromRaw_next (h : Heap) (p : Nat) : (shared_ptr.fromRaw h p).1.next = h.next + 1 := rfl

theorem fromRaw_managed (h : Heap) (p c : Nat) :
    (shared_ptr.fromRaw h p).1.managed c = if c = h.next then p else h.managed c := rfl

theorem fromRaw_val (h : Heap) (p : Nat) : (shared_ptr.fromRaw h p).2 = ⟨some h.next, p⟩ := rfl

theorem Coh_of_managed {h h1 : Heap} (hm : h1.managed = h.managed) {cb : Option Nat}
    {ptr : Nat} (hc : Coh h cb ptr) : Coh h1 cb ptr := by
  cases cb <;> simp_all [Coh]

theorem Coh_empty (h : Heap) : Coh h shared_ptr.empty.cb shared_ptr.empty.ptr := by
  simp [Coh, shared_ptr.empty]

theorem forall_mem_set {α : Type} (P : α → Prop) (l : List α) (i : Nat) (x : α)
    (hl : ∀ v ∈ l, P v) (hx : P x) : ∀ v ∈ l.set i x, P v := by
  intro v hv
  rcases List.mem_or_eq_of_mem_set hv with h | h
  · exact hl v h
  · exact h ▸ hx

theorem forall_mem_push {α : Type} (P : α → Prop) (l : List α) (x : α)
    (hl : ∀ v ∈ l, P v) (hx : P x) : ∀ v ∈ l ++ [x], P v := by
  intro v hv
  simp only [List.mem_append, List.mem_singleton] at hv
  rcases hv with h | h
  · exact hl v h
  · exact h ▸ hx

theorem AddrOk_of_le {h h1 : Heap} (hs : ∀ c, h1.strong c ≤ h.strong c)
    (hm : h1.managed = h.managed) (a : AddrOk h) : AddrOk h1 := by
  intro c d hc hd hmm hn
  rw [hm] at hmm hn
  exact a c d (lt_of_lt_of_le hc (hs c)) (lt_of_lt_of_le hd (hs d)) hmm hn

theorem AddrOk_of_pos {h h1 : Heap} (hs : ∀ c, 0 < h1.strong c → 0 < h.strong c)
    (hm : h1.managed = h.managed) (a : AddrOk h) : AddrOk h1 := by
  intro c d hc hd hmm hn
  rw [hm] at hmm hn
  exact a c d (hs c hc) (hs d hd) hmm hn

theorem AddrOk_alloc {h : Heap} (p : Nat) (hp : p = 0 ∨ h.fresh p)
    (hb : ∀ c, h.next ≤ c → h.strong c = 0) (a : AddrOk h) :
    AddrOk (shared_ptr.fromRaw h p).1 := by
  intro c d hc hd hm hn
  simp only [fromRaw_strong, fromRaw_managed] at hc hd hm hn
  have bc : c ≠ h.next → c < h.next := by
    intro g; by_contra g1; have := hb c (by omega); rw [if_neg g] at hc; omega
  have bd : d ≠ h.next → d < h.next := by
    intro g; by_contra g1; have := hb d (by omega); rw [if_neg g] at hd; omega
  by_cases h1 : c = h.next <;> by_cases h2 : d = h.next
  · omega
  · rw [if_pos h1, if_neg h2] at hm
    rw [if_pos h1] at hn
    rw [if_neg h2] at hd
    rcases hp with hp | hp
    · exact absurd hp hn
    · exact absurd hm.symm (hp.2 d (bd h2) hd)
  · rw [if_neg h1, if_pos h2] at hm
    rw [if_neg h1] at hn hc
    rcases hp with hp | hp
    · exact absurd (hm.trans hp) hn
    · exact absurd hm (hp.2 c (bc h1) hc)
  · rw [if_neg h1, if_neg h2] at hm
    rw [if_neg h1] at hn hc
    rw [if_neg h2] at hd
    exact a c d hc hd hm hn

theorem Inv.fresh_zero {lib : StdLib} {w : World} (I : Inv lib w) :
    refs nsCb w.heap.next w.ns = 0 ∧ refs lkCb w.heap.next w.lk = 0 := by
  have h1 := I.bound w.heap.next (le_refl _)
  have h2 := I.count w.heap.next
  omega

theorem Inv.ns_default {lib : StdLib} {w : World} (I : Inv lib w) : Inv lib w.ns_default := by
  constructor
  · intro c
    simpa [World.ns_default, refs_push, noshared_ptr.default, nsCb, shared_ptr.empty, ind_none]
      using I.count c
  · exact I.bound
  · exact I.wkBound
  · intro hl c
    simpa [World.ns_default, refs_push, noshared_ptr.default, nsCb, shared_ptr.empty, ind_none]
      using I.unique hl c
  · exact forall_mem_push _ _ _ I.nsPtr (Coh_empty _)
  · exact I.lkPtr
  · exact I.wkPtr
  · exact I.addr

theorem Inv.ns_move_construct {lib : StdLib} {w : World} (I :
    Inv lib w) (src : Nat) (hs : src < w.ns.length) :
    Inv lib (w.ns_move_construct src) := by
  have e := refs_set nsCb
  have key : ∀ c, refs nsCb c (w.ns.set src ⟨shared_ptr.empty⟩ ++ [w.nsGet src])
      = refs nsCb c w.ns := by
    intro c
    have := refs_set nsCb c noshared_ptr.default ⟨shared_ptr.empty⟩ w.ns src hs
    rw [refs_push]
    simp only [World.nsGet]
    simp only [nsCb, shared_ptr.empty, ind_none] at this ⊢
    omega
  constructor
  · intro c
    have := key c
    simp only [World.ns_move_construct, noshared_ptr.move_construct] at this ⊢
    rw [this]; exact I.count c
  · exact I.bound
  · exact I.wkBound
  · intro hl c
    have := key c
    simp only [World.ns_move_construct, noshared_ptr.move_construct] at this ⊢
    rw [this]; exact I.unique hl c
  · exact forall_mem_push _ _ _ (forall_mem_set _ _ _ _ I.nsPtr (Coh_empty _))
      (I.nsPtr _ (getD_mem _ _ _ hs))
  · exact I.lkPtr
  · exact I.wkPtr
  · exact I.addr

theorem Inv.ns_construct {lib : StdLib} {w : World} (I :
    Inv lib w) (p : Nat) (hp : p = 0 ∨ w.heap.fresh p) :
    Inv lib (w.ns_construct p) := by
  have hz := I.fresh_zero
  constructor
  · intro c
    have h2 := I.count c
    simp only [World.ns_construct, noshared_ptr.construct, fromRaw_strong, fromRaw_val,
      refs_push, nsCb, ind_some]
    by_cases hc : c = w.heap.next
    · subst hc; simp [nsCb] at hz ⊢; omega
    · rw [if_neg hc, if_neg (Ne.symm hc)]; simpa [nsCb] using h2
  · intro c hc
    simp only [World.ns_construct, noshared_ptr.construct, fromRaw_strong, fromRaw_next] at hc ⊢
    rw [if_neg (by omega)]
    exact I.bound c (by omega)
  · intro v hv c hc
    have := I.wkBound v hv c hc
    simp only [World.ns_construct, noshared_ptr.construct, fromRaw_next]
    omega
  · intro hl c
    have h2 := I.unique hl c
    simp only [World.ns_construct, noshared_ptr.construct, fromRaw_val, refs_push, nsCb, ind_some]
    by_cases hc : c = w.heap.next
    · subst hc; simp [nsCb] at hz ⊢; omega
    · rw [if_neg (Ne.symm hc)]; simpa [nsCb] using h2
  · refine forall_mem_push _ _ _ (fun v hv => Coh_alloc _ _ _ _ (I.nsLt v hv) (I.nsPtr v hv)) ?_
    simp [World.ns_construct, noshared_ptr.construct, shared_ptr.fromRaw, Coh]
  · intro v hv
    exact Coh_alloc _ _ _ _ (I.lkLt v hv) (I.lkPtr v hv)
  · intro v hv
    exact Coh_alloc _ _ _ _ (I.wkBound v hv) (I.wkPtr v hv)
  · exact AddrOk_alloc p hp I.bound I.addr

theorem Inv.make_noshared {lib : StdLib} {w : World} (I :
    Inv lib w) (p : Nat) (hp : w.heap.fresh p) :
    Inv lib (w.make_noshared p) :=
  I.ns_construct p (Or.inr hp)

theorem Inv.ns_move_assign {lib : StdLib} {w : World} (I :
    Inv lib w) (dst src : Nat) (hd : dst < w.ns.length)
    (hs : src < w.ns.length) : Inv lib (w.ns_move_assign dst src) := by
  have hd1 : dst < (w.ns.set src ⟨shared_ptr.empty⟩).length := by simpa using hd
  have hns : (w.ns_move_assign dst src).ns
      = (w.ns.set src ⟨shared_ptr.empty⟩).set dst ⟨(w.ns[src]?.getD noshared_ptr.default).sptr_⟩ :=
    rfl
  have hheap : (w.ns_move_assign dst src).heap = shared_ptr.release w.heap
      ((w.ns.set src ⟨shared_ptr.empty⟩)[dst]?.getD noshared_ptr.default).sptr_ := rfl
  have hlk : (w.ns_move_assign dst src).lk = w.lk := rfl
  have hwk : (w.ns_move_assign dst src).wk = w.wk := rfl
  have key : ∀ c, refs nsCb c (w.ns_move_assign dst src).ns
      + ind ((w.ns.set src ⟨shared_ptr.empty⟩)[dst]?.getD noshared_ptr.default).sptr_.cb c
      = refs nsCb c w.ns ∧
      ind ((w.ns.set src ⟨shared_ptr.empty⟩)[dst]?.getD noshared_ptr.default).sptr_.cb c
        ≤ refs nsCb c w.ns := by
    intro c
    have a := refs_set nsCb c noshared_ptr.default ⟨shared_ptr.empty⟩ w.ns src hs
    have b := refs_set nsCb c noshared_ptr.default
      ⟨(w.ns[src]?.getD noshared_ptr.default).sptr_⟩ (w.ns.set src ⟨shared_ptr.empty⟩) dst hd1
    have d := ind_getD_le nsCb c noshared_ptr.default (w.ns.set src ⟨shared_ptr.empty⟩) dst hd1
    rw [hns]
    simp only [nsCb, shared_ptr.empty, ind_none] at a b d ⊢
    omega
  have mem : ∀ v ∈ (w.ns_move_assign dst src).ns, Coh w.heap v.sptr_.cb v.sptr_.ptr :=
    forall_mem_set _ _ _ _ (forall_mem_set _ _ _ _ I.nsPtr (Coh_empty _))
      (I.nsPtr _ (getD_mem _ _ _ hs))
  constructor
  · intro c
    have := key c
    have h2 := I.count c
    rw [hheap, hlk, release_strong]
    omega
  · intro c hc
    rw [hheap, release_next] at hc
    have := I.bound c hc
    rw [hheap, release_strong]
    omega
  · intro v hv c hc
    have := I.wkBound v hv c hc
    rw [hheap, release_next]
    exact this
  · intro hl c
    have := key c
    have h2 := I.unique hl c
    omega
  · intro v hv
    rw [hheap]
    exact Coh_of_managed (release_managed _ _) (mem v hv)
  · intro v hv
    rw [hheap]
    exact Coh_of_managed (release_managed _ _) (I.lkPtr v hv)
  · intro v hv
    rw [hheap]
    exact Coh_of_managed (release_managed _ _) (I.wkPtr v hv)
  · rw [hheap]
    refine AddrOk_of_le ?_ (release_managed _ _) I.addr
    intro c
    rw [release_strong]
    omega

theorem Inv.ns_reset {lib : StdLib} {w : World} (I : Inv lib w) (i p : Nat) (hi : i < w.ns.length)
    (hp : p = 0 ∨ w.heap.fresh p) : Inv lib (w.ns_reset i p) := by
  have hz := I.fresh_zero
  have hns : (w.ns_reset i p).ns = w.ns.set i ⟨⟨some w.heap.next, p⟩⟩ := rfl
  have hheap : (w.ns_reset i p).heap = shared_ptr.release (shared_ptr.fromRaw w.heap p).1
      (w.ns[i]?.getD noshared_ptr.default).sptr_ := rfl
  have hlk : (w.ns_reset i p).lk = w.lk := rfl
  have hwk : (w.ns_reset i p).wk = w.wk := rfl
  have key : ∀ c, refs nsCb c (w.ns_reset i p).ns
      + ind (w.ns[i]?.getD noshared_ptr.default).sptr_.cb c
      = refs nsCb c w.ns + (if w.heap.next = c then 1 else 0) ∧
      ind (w.ns[i]?.getD noshared_ptr.default).sptr_.cb c ≤ refs nsCb c w.ns := by
    intro c
    have a := refs_set nsCb c noshared_ptr.default ⟨⟨some w.heap.next, p⟩⟩ w.ns i hi
    have d := ind_getD_le nsCb c noshared_ptr.default w.ns i hi
    rw [hns]
    simp only [nsCb, ind_some] at a d ⊢
    omega
  constructor
  · intro c
    have := key c
    have h2 := I.count c
    rw [hheap, hlk, release_strong, fromRaw_strong]
    by_cases hc : c = w.heap.next
    · subst hc; simp only [if_true] at this ⊢; omega
    · rw [if_neg hc]; rw [if_neg (Ne.symm hc)] at this; omega
  · intro c hc
    rw [hheap, release_next, fromRaw_next] at hc
    have := I.bound c (by omega)
    rw [hheap, release_strong, fromRaw_strong, if_neg (by omega)]
    omega
  · intro v hv c hc
    have := I.wkBound v hv c hc
    rw [hheap, release_next, fromRaw_next]
    omega
  · intro hl c
    have := key c
    have h2 := I.unique hl c
    by_cases hc : c = w.heap.next
    · subst hc; simp only [if_true] at this; omega
    · rw [if_neg (Ne.symm hc)] at this; omega
  · intro v hv
    rw [hheap]
    refine Coh_of_managed (release_managed _ _) ?_
    revert v
    refine forall_mem_set _ _ _ _
      (fun v hv => Coh_alloc _ _ _ _ (I.nsLt v hv) (I.nsPtr v hv)) ?_
    simp [noshared_ptr.reset, shared_ptr.reset, shared_ptr.fromRaw, Coh]
  · intro v hv
    rw [hheap]
    exact Coh_of_managed (release_managed _ _) (Coh_alloc _ _ _ _ (I.lkLt v hv) (I.lkPtr v hv))
  · intro v hv
    rw [hheap]
    exact Coh_of_managed (release_managed _ _)
      (Coh_alloc _ _ _ _ (I.wkBound v hv) (I.wkPtr v hv))
  · rw [hheap]
    refine AddrOk_of_le ?_ (release_managed _ _) (AddrOk_alloc p hp I.bound I.addr)
    intro c
    rw [release_strong]
    omega

theorem Inv.ns_assign_null {lib : StdLib} {w : World} (I :
    Inv lib w) (i : Nat) (hi : i < w.ns.length) :
    Inv lib (w.ns_assign_null i) :=
  I.ns_reset i 0 hi (Or.inl rfl)

theorem Inv.ns_swap {lib : StdLib} {w : World} (I : Inv lib w) (i j : Nat) (hi : i < w.ns.length)
    (hj : j < w.ns.length) : Inv lib (w.ns_swap i j) := by
  have hj1 : j < (w.ns.set i ⟨(w.ns[j]?.getD noshared_ptr.default).sptr_⟩).length := by
    simpa using hj
  have hns : (w.ns_swap i j).ns
      = (w.ns.set i ⟨(w.ns[j]?.getD noshared_ptr.default).sptr_⟩).set j
          ⟨(w.ns[i]?.getD noshared_ptr.default).sptr_⟩ := rfl
  have hheap : (w.ns_swap i j).heap = w.heap := rfl
  have hlk : (w.ns_swap i j).lk = w.lk := rfl
  have hwk : (w.ns_swap i j).wk = w.wk := rfl
  have key : ∀ c, refs nsCb c (w.ns_swap i j).ns = refs nsCb c w.ns := by
    intro c
    have a := refs_set nsCb c noshared_ptr.default
      ⟨(w.ns[j]?.getD noshared_ptr.default).sptr_⟩ w.ns i hi
    have b := refs_set nsCb c noshared_ptr.default
      ⟨(w.ns[i]?.getD noshared_ptr.default).sptr_⟩
      (w.ns.set i ⟨(w.ns[j]?.getD noshared_ptr.default).sptr_⟩) j hj1
    rw [getD_set] at b
    rw [hns]
    by_cases hij : i = j
    · subst hij
      rw [if_pos ⟨rfl, hi⟩] at b
      simp only [nsCb] at a b ⊢
      omega
    · rw [if_neg (fun h => hij h.1)] at b
      simp only [nsCb] at a b ⊢
      omega
  constructor
  · intro c; rw [key c, hheap, hlk]; exact I.count c
  · exact I.bound
  · exact I.wkBound
  · intro hl c; rw [key c]; exact I.unique hl c
  · exact forall_mem_set _ _ _ _ (forall_mem_set _ _ _ _ I.nsPtr (I.nsPtr _ (getD_mem _ _ _ hj)))
      (I.nsPtr _ (getD_mem _ _ _ hi))
  · exact I.lkPtr
  · exact I.wkPtr
  · exact I.addr

theorem Inv.ns_destroy {lib : StdLib} {w : World} (I : Inv lib w) (i : Nat) (hi : i < w.ns.length) :
    Inv lib (w.ns_destroy i) := by
  have hns : (w.ns_destroy i).ns = w.ns.set i ⟨⟨none, 0⟩⟩ := rfl
  have hheap : (w.ns_destroy i).heap = shared_ptr.release w.heap
      (w.ns[i]?.getD noshared_ptr.default).sptr_ := rfl
  have hlk : (w.ns_destroy i).lk = w.lk := rfl
  have hwk : (w.ns_destroy i).wk = w.wk := rfl
  have key : ∀ c, refs nsCb c (w.ns_destroy i).ns
      + ind (w.ns[i]?.getD noshared_ptr.default).sptr_.cb c = refs nsCb c w.ns ∧
      ind (w.ns[i]?.getD noshared_ptr.default).sptr_.cb c ≤ refs nsCb c w.ns := by
    intro c
    have a := refs_set nsCb c noshared_ptr.default ⟨⟨none, 0⟩⟩ w.ns i hi
    have d := ind_getD_le nsCb c noshared_ptr.default w.ns i hi
    rw [hns]
    simp only [nsCb, ind_none] at a d ⊢
    omega
  constructor
  · intro c
    have := key c
    have h2 := I.count c
    rw [hheap, hlk, release_strong]
    omega
  · intro c hc
    rw [hheap, release_next] at hc
    have := I.bound c hc
    rw [hheap, release_strong]
    omega
  · intro v hv c hc
    rw [hheap, release_next]
    exact I.wkBound v hv c hc
  · intro hl c
    have := key c
    have h2 := I.unique hl c
    omega
  · intro v hv
    rw [hheap]
    refine Coh_of_managed (release_managed _ _) ?_
    revert v
    exact forall_mem_set _ _ _ _ I.nsPtr (Coh_empty _)
  · intro v hv
    rw [hheap]
    exact Coh_of_managed (release_managed _ _) (I.lkPtr v hv)
  · intro v hv
    rw [hheap]
    exact Coh_of_managed (release_managed _ _) (I.wkPtr v hv)
  · rw [hheap]
    refine AddrOk_of_le ?_ (release_managed _ _) I.addr
    intro c
    rw [release_strong]
    omega

theorem dynamic_pointer_cast_next (lib : StdLib) (isa : Nat → Bool) (h : Heap)
    (o : noshared_ptr) : (dynamic_pointer_cast lib isa h o).1.next = h.next := by
  simp only [dynamic_pointer_cast, noshared_ptr.from_shared, release_next, copy_next,
    std_dynamic_pointer_cast]
  split
  · cases lib
    · exact copy_next _ _
    · rfl
  · rfl

theorem dynamic_pointer_cast_managed (lib : StdLib) (isa : Nat → Bool) (h : Heap)
    (o : noshared_ptr) : (dynamic_pointer_cast lib isa h o).1.managed = h.managed := by
  simp only [dynamic_pointer_cast, noshared_ptr.from_shared, release_managed, copy_managed,
    std_dynamic_pointer_cast]
  split
  · cases lib
    · exact copy_managed _ _
    · rfl
  · rfl

theorem dynamic_cast_match (isa : Nat → Bool) (p : Nat) (h : p ≠ 0 ∧ isa p = true) :
    dynamic_cast isa p = p := by
  simp [dynamic_cast, h]

theorem dynamic_cast_fail (isa : Nat → Bool) (p : Nat) (h : ¬ (p ≠ 0 ∧ isa p = true)) :
    dynamic_cast isa p = 0 := by
  simp only [dynamic_cast]; rw [if_neg h]

/-- The three outcomes of dynamic_pointer_cast: a match with the overload taking shared_ptr&&,
a match without it, and a failed cast. -/
theorem dynamic_pointer_cast_cases (lib : StdLib) (isa : Nat → Bool) (h : Heap)
    (o : noshared_ptr) :
    (lib = .withRvalue ∧ (o.sptr_.ptr ≠ 0 ∧ isa o.sptr_.ptr = true) ∧
      (dynamic_pointer_cast lib isa h o).2.1 = o ∧
      (dynamic_pointer_cast lib isa h o).2.2 = ⟨shared_ptr.empty⟩ ∧
      ∀ c, (dynamic_pointer_cast lib isa h o).1.strong c = h.strong c) ∨
    (lib = .constRefOnly ∧ (o.sptr_.ptr ≠ 0 ∧ isa o.sptr_.ptr = true) ∧
      (dynamic_pointer_cast lib isa h o).2.1 = o ∧
      (dynamic_pointer_cast lib isa h o).2.2 = o ∧
      ∀ c, (dynamic_pointer_cast lib isa h o).1.strong c = h.strong c + ind o.sptr_.cb c) ∨
    (¬ (o.sptr_.ptr ≠ 0 ∧ isa o.sptr_.ptr = true) ∧
      (dynamic_pointer_cast lib isa h o).2.1 = ⟨shared_ptr.empty⟩ ∧
      (dynamic_pointer_cast lib isa h o).2.2 = o ∧
      ∀ c, (dynamic_pointer_cast lib isa h o).1.strong c = h.strong c) := by
  by_cases hm : o.sptr_.ptr ≠ 0 ∧ isa o.sptr_.ptr = true
  · have e := dynamic_cast_match isa o.sptr_.ptr hm
    have hne : ¬ o.sptr_.ptr = 0 := hm.1
    cases lib with
    | withRvalue =>
      left
      refine ⟨rfl, hm, ?_, ?_, ?_⟩
      · simp [dynamic_pointer_cast, std_dynamic_pointer_cast, shared_ptr.get, e, hne,
          noshared_ptr.from_shared, copy_val]
      · simp [dynamic_pointer_cast, std_dynamic_pointer_cast, shared_ptr.get, e, hne]
      · intro c
        simp only [dynamic_pointer_cast, std_dynamic_pointer_cast, shared_ptr.get, e,
          noshared_ptr.from_shared, release_strong, copy_strong]
        rw [if_pos hm.1]
        show h.strong c + ind o.sptr_.cb c - ind o.sptr_.cb c = h.strong c
        omega
    | constRefOnly =>
      right; left
      refine ⟨rfl, hm, ?_, ?_, ?_⟩
      · simp [dynamic_pointer_cast, std_dynamic_pointer_cast, shared_ptr.get, e, hne,
          noshared_ptr.from_shared, copy_val]
      · simp [dynamic_pointer_cast, std_dynamic_pointer_cast, shared_ptr.get, e, hne]
      · intro c
        simp only [dynamic_pointer_cast, std_dynamic_pointer_cast, shared_ptr.get, e,
          noshared_ptr.from_shared, release_strong, copy_strong]
        rw [if_pos hm.1]
        show (shared_ptr.copy h ⟨o.sptr_.cb, o.sptr_.ptr⟩).1.strong c + ind o.sptr_.cb c
          - ind o.sptr_.cb c = h.strong c + ind o.sptr_.cb c
        rw [copy_strong]
        show h.strong c + ind o.sptr_.cb c + ind o.sptr_.cb c - ind o.sptr_.cb c = _
        omega
  · have e := dynamic_cast_fail isa o.sptr_.ptr hm
    right; right
    refine ⟨hm, ?_, ?_, ?_⟩
    · simp [dynamic_pointer_cast, std_dynamic_pointer_cast, shared_ptr.get, e,
        noshared_ptr.from_shared, copy_val]
    · simp [dynamic_pointer_cast, std_dynamic_pointer_cast, shared_ptr.get, e]
    · intro c
      simp only [dynamic_pointer_cast, std_dynamic_pointer_cast, shared_ptr.get, e,
        noshared_ptr.from_shared, release_strong, copy_strong]
      simp [shared_ptr.empty, ind_none]

theorem Inv.ns_dynamic_cast {lib : StdLib} {w : World} (I : Inv lib w) (src : Nat)
    (isa : Nat → Bool) (hs : src < w.ns.length) : Inv lib (w.ns_dynamic_cast lib src isa) := by
  have hns : (w.ns_dynamic_cast lib src isa).ns
      = w.ns.set src (dynamic_pointer_cast lib isa w.heap
            (w.ns[src]?.getD noshared_ptr.default)).2.2
          ++ [(dynamic_pointer_cast lib isa w.heap
            (w.ns[src]?.getD noshared_ptr.default)).2.1] := rfl
  have hheap : (w.ns_dynamic_cast lib src isa).heap
      = (dynamic_pointer_cast lib isa w.heap (w.ns[src]?.getD noshared_ptr.default)).1 := rfl
  have hlk : (w.ns_dynamic_cast lib src isa).lk = w.lk := rfl
  have hwk : (w.ns_dynamic_cast lib src isa).wk = w.wk := rfl
  have hmem := I.nsPtr _ (getD_mem noshared_ptr.default _ _ hs)
  have hle := fun c => ind_getD_le nsCb c noshared_ptr.default w.ns src hs
  have hcount := I.count
  have key : ∃ d : Nat → Nat,
      (∀ c, (w.ns_dynamic_cast lib src isa).heap.strong c = w.heap.strong c + d c) ∧
      (∀ c, refs nsCb c (w.ns_dynamic_cast lib src isa).ns = refs nsCb c w.ns + d c) ∧
      (∀ c, d c ≤ refs nsCb c w.ns) ∧ (lib = .withRvalue → ∀ c, d c = 0) ∧
      (∀ v ∈ (w.ns_dynamic_cast lib src isa).ns, Coh w.heap v.sptr_.cb v.sptr_.ptr) := by
    rw [hns, hheap]
    rcases dynamic_pointer_cast_cases lib isa w.heap (w.ns[src]?.getD noshared_ptr.default)
      with ⟨_, _, h1, h2, h3⟩ | ⟨hl, _, h1, h2, h3⟩ | ⟨_, h1, h2, h3⟩
    · refine ⟨fun _ => 0, fun c => by rw [h3 c]; rfl, ?_, fun _ => Nat.zero_le _, fun _ _ => rfl, ?_⟩
      · intro c
        rw [h1, h2, refs_push]
        have a := refs_set nsCb c noshared_ptr.default ⟨shared_ptr.empty⟩ w.ns src hs
        simp only [nsCb, shared_ptr.empty, ind_none] at a ⊢
        omega
      · rw [h1, h2]
        exact forall_mem_push _ _ _ (forall_mem_set _ _ _ _ I.nsPtr (Coh_empty _)) hmem
    · refine ⟨fun c => ind (w.ns[src]?.getD noshared_ptr.default).sptr_.cb c, h3, ?_, ?_, ?_, ?_⟩
      · intro c
        rw [h1, h2, refs_push]
        have a := refs_set nsCb c noshared_ptr.default (w.ns[src]?.getD noshared_ptr.default)
          w.ns src hs
        simp only [nsCb] at a ⊢
        omega
      · intro c
        have := hle c
        simpa [nsCb] using this
      · intro hl2
        rw [hl] at hl2
        exact absurd hl2 (by decide)
      · rw [h1, h2]
        exact forall_mem_push _ _ _ (forall_mem_set _ _ _ _ I.nsPtr hmem) hmem
    · refine ⟨fun _ => 0, fun c => by rw [h3 c]; rfl, ?_, fun _ => Nat.zero_le _, fun _ _ => rfl, ?_⟩
      · intro c
        rw [h1, h2, refs_push]
        have a := refs_set nsCb c noshared_ptr.default (w.ns[src]?.getD noshared_ptr.default)
          w.ns src hs
        simp only [nsCb, shared_ptr.empty, ind_none] at a ⊢
        omega
      · rw [h1, h2]
        exact forall_mem_push _ _ _ (forall_mem_set _ _ _ _ I.nsPtr hmem) (Coh_empty _)
  obtain ⟨d, kst, kns, kle, kz, kmem⟩ := key
  have hmg : (w.ns_dynamic_cast lib src isa).heap.managed = w.heap.managed := by
    rw [hheap]; exact dynamic_pointer_cast_managed _ _ _ _
  have hnx : (w.ns_dynamic_cast lib src isa).heap.next = w.heap.next := by
    rw [hheap]; exact dynamic_pointer_cast_next _ _ _ _
  constructor
  · intro c
    have := hcount c
    rw [kst c, kns c, hlk]
    omega
  · intro c hc
    rw [hnx] at hc
    have := I.bound c hc
    have := hcount c
    have := kle c
    rw [kst c]
    omega
  · intro v hv c hc
    rw [hnx]
    exact I.wkBound v hv c hc
  · intro hl c
    have := I.unique hl c
    have := kz hl c
    rw [kns c]
    omega
  · intro v hv
    exact Coh_of_managed hmg (kmem v hv)
  · intro v hv
    exact Coh_of_managed hmg (I.lkPtr v hv)
  · intro v hv
    exact Coh_of_managed hmg (I.wkPtr v hv)
  · refine AddrOk_of_pos ?_ hmg I.addr
    intro c hc
    have := hcount c
    have := kle c
    rw [kst c] at hc
    omega

theorem lock_cases (h : Heap) (v : weak_ptr) :
    (weak_ptr.expired h v = true ∧ weak_ptr.lock h v = (h, shared_ptr.empty)) ∨
    (∃ c, v.cb = some c ∧ 0 < h.strong c ∧ weak_ptr.expired h v = false ∧
      weak_ptr.lock h v = (h.incStrong c, ⟨some c, v.ptr⟩)) := by
  cases hcb : v.cb with
  | none => left; simp [weak_ptr.expired, weak_ptr.use_count, weak_ptr.lock, hcb]
  | some c =>
    by_cases hz : h.strong c = 0
    · left; simp [weak_ptr.expired, weak_ptr.use_count, weak_ptr.lock, hcb, hz]
    · right
      refine ⟨c, rfl, by omega, ?_, ?_⟩
      · simp [weak_ptr.expired, weak_ptr.use_count, hcb, hz]
      · simp [weak_ptr.expired, weak_ptr.use_count, weak_ptr.lock, hcb, hz]

theorem Inv.lk_construct {lib : StdLib} {w : World} (I :
    Inv lib w) (k : Nat) (hk : k < w.wk.length) :
    Inv lib (w.lk_construct k) := by
  have hmem := getD_mem noweak_ptr.default w.wk k hk
  have hns : (w.lk_construct k).ns = w.ns := rfl
  have hwk : (w.lk_construct k).wk = w.wk := rfl
  have hheap : (w.lk_construct k).heap
      = (weak_ptr.lock w.heap (w.wk[k]?.getD noweak_ptr.default).wptr_).1 := rfl
  have hlk : (w.lk_construct k).lk
      = w.lk ++ [⟨(weak_ptr.lock w.heap (w.wk[k]?.getD noweak_ptr.default).wptr_).2⟩] := rfl
  rcases lock_cases w.heap (w.wk[k]?.getD noweak_ptr.default).wptr_ with
    ⟨_, h2⟩ | ⟨c0, hc0, hpos, _, h2⟩
  · rw [h2] at hheap hlk
    constructor
    · intro c
      rw [hheap, hlk, hns, refs_push]
      simpa [lkCb, shared_ptr.empty, ind_none] using I.count c
    · rw [hheap]; exact I.bound
    · rw [hheap, hwk]; exact I.wkBound
    · rw [hns]; exact I.unique
    · rw [hheap, hns]; exact I.nsPtr
    · rw [hheap, hlk]; exact forall_mem_push _ _ _ I.lkPtr (Coh_empty _)
    · rw [hheap, hwk]; exact I.wkPtr
    · rw [hheap]; exact I.addr
  · rw [h2] at hheap hlk
    have hlt := I.wkBound _ hmem c0 hc0
    have hcoh := I.wkPtr _ hmem
    rw [hc0] at hcoh
    have hm : (w.heap.incStrong c0).managed = w.heap.managed := rfl
    have hst : ∀ c, (w.heap.incStrong c0).strong c = w.heap.strong c + ind (some c0) c := by
      intro c
      simp only [Heap.incStrong, ind_some]
      by_cases hx : c = c0
      · simp [hx]
      · simp [hx, Ne.symm hx]
    constructor
    · intro c
      have := I.count c
      rw [hheap, hlk, hns, refs_push, hst]
      simp only [lkCb]
      omega
    · intro c hc
      rw [hheap] at hc ⊢
      have := I.bound c hc
      have hne : c0 ≠ c := by
        have : w.heap.next ≤ c := hc
        omega
      rw [hst, ind_some, if_neg hne]
      omega
    · rw [hheap, hwk]; exact I.wkBound
    · rw [hns]; exact I.unique
    · intro v hv
      rw [hheap]
      exact Coh_of_managed hm (I.nsPtr v hv)
    · intro v hv
      rw [hheap]
      refine Coh_of_managed hm ?_
      revert v
      rw [hlk]
      exact forall_mem_push _ _ _ I.lkPtr hcoh
    · intro v hv
      rw [hheap]
      exact Coh_of_managed hm (I.wkPtr v hv)
    · rw [hheap]
      refine AddrOk_of_pos ?_ hm I.addr
      intro c hc
      rw [hst, ind_some] at hc
      by_cases hx : c0 = c
      · subst hx; exact hpos
      · rw [if_neg hx] at hc; omega

theorem Inv.lk_reset {lib : StdLib} {w : World} (I : Inv lib w) (l p : Nat) (hl : l < w.lk.length)
    (hp : p = 0 ∨ w.heap.fresh p) : Inv lib (w.lk_reset l p) := by
  have hz := I.fresh_zero
  have hlk : (w.lk_reset l p).lk = w.lk.set l ⟨⟨some w.heap.next, p⟩⟩ := rfl
  have hheap : (w.lk_reset l p).heap = shared_ptr.release (shared_ptr.fromRaw w.heap p).1
      (w.lk[l]?.getD ⟨shared_ptr.empty⟩).sptr_ := rfl
  have hns : (w.lk_reset l p).ns = w.ns := rfl
  have hwk : (w.lk_reset l p).wk = w.wk := rfl
  have key : ∀ c, refs lkCb c (w.lk_reset l p).lk
      + ind (w.lk[l]?.getD ⟨shared_ptr.empty⟩).sptr_.cb c
      = refs lkCb c w.lk + (if w.heap.next = c then 1 else 0) ∧
      ind (w.lk[l]?.getD ⟨shared_ptr.empty⟩).sptr_.cb c ≤ refs lkCb c w.lk := by
    intro c
    have a := refs_set lkCb c ⟨shared_ptr.empty⟩ ⟨⟨some w.heap.next, p⟩⟩ w.lk l hl
    have d := ind_getD_le lkCb c ⟨shared_ptr.empty⟩ w.lk l hl
    rw [hlk]
    simp only [lkCb, ind_some] at a d ⊢
    omega
  constructor
  · intro c
    have := key c
    have h2 := I.count c
    rw [hheap, hns, release_strong, fromRaw_strong]
    by_cases hc : c = w.heap.next
    · subst hc; simp only [if_true] at this ⊢; omega
    · rw [if_neg hc]; rw [if_neg (Ne.symm hc)] at this; omega
  · intro c hc
    rw [hheap, release_next, fromRaw_next] at hc
    have := I.bound c (by omega)
    rw [hheap, release_strong, fromRaw_strong, if_neg (by omega)]
    omega
  · intro v hv c hc
    have := I.wkBound v hv c hc
    rw [hheap, release_next, fromRaw_next]
    omega
  · rw [hns]; exact I.unique
  · intro v hv
    rw [hheap]
    exact Coh_of_managed (release_managed _ _) (Coh_alloc _ _ _ _ (I.nsLt v hv) (I.nsPtr v hv))
  · intro v hv
    rw [hheap]
    refine Coh_of_managed (release_managed _ _) ?_
    revert v
    refine forall_mem_set _ _ _ _
      (fun v hv => Coh_alloc _ _ _ _ (I.lkLt v hv) (I.lkPtr v hv)) ?_
    simp [locked_ptr.reset, shared_ptr.reset, shared_ptr.fromRaw, Coh]
  · intro v hv
    rw [hheap]
    exact Coh_of_managed (release_managed _ _)
      (Coh_alloc _ _ _ _ (I.wkBound v hv) (I.wkPtr v hv))
  · rw [hheap]
    refine AddrOk_of_le ?_ (release_managed _ _) (AddrOk_alloc p hp I.bound I.addr)
    intro c
    rw [release_strong]
    omega

theorem Inv.lk_destroy {lib : StdLib} {w : World} (I : Inv lib w) (l : Nat) (hl : l < w.lk.length) :
    Inv lib (w.lk_destroy l) := by
  have hlk : (w.lk_destroy l).lk = w.lk.set l ⟨⟨none, 0⟩⟩ := rfl
  have hheap : (w.lk_destroy l).heap = shared_ptr.release w.heap
      (w.lk[l]?.getD ⟨shared_ptr.empty⟩).sptr_ := rfl
  have hns : (w.lk_destroy l).ns = w.ns := rfl
  have hwk : (w.lk_destroy l).wk = w.wk := rfl
  have key : ∀ c, refs lkCb c (w.lk_destroy l).lk
      + ind (w.lk[l]?.getD ⟨shared_ptr.empty⟩).sptr_.cb c = refs lkCb c w.lk ∧
      ind (w.lk[l]?.getD ⟨shared_ptr.empty⟩).sptr_.cb c ≤ refs lkCb c w.lk := by
    intro c
    have a := refs_set lkCb c ⟨shared_ptr.empty⟩ ⟨⟨none, 0⟩⟩ w.lk l hl
    have d := ind_getD_le lkCb c ⟨shared_ptr.empty⟩ w.lk l hl
    rw [hlk]
    simp only [lkCb, ind_none] at a d ⊢
    omega
  constructor
  · intro c
    have := key c
    have h2 := I.count c
    rw [hheap, hns, release_strong]
    omega
  · intro c hc
    rw [hheap, release_next] at hc
    have := I.bound c hc
    rw [hheap, release_strong]
    omega
  · intro v hv c hc
    rw [hheap, release_next]
    exact I.wkBound v hv c hc
  · rw [hns]; exact I.unique
  · intro v hv
    rw [hheap]
    exact Coh_of_managed (release_managed _ _) (I.nsPtr v hv)
  · intro v hv
    rw [hheap]
    refine Coh_of_managed (release_managed _ _) ?_
    revert v
    exact forall_mem_set _ _ _ _ I.lkPtr (Coh_empty _)
  · intro v hv
    rw [hheap]
    exact Coh_of_managed (release_managed _ _) (I.wkPtr v hv)
  · rw [hheap]
    refine AddrOk_of_le ?_ (release_managed _ _) I.addr
    intro c
    rw [release_strong]
    omega

/-! ### Weak handles leave the strong side alone -/

theorem SameOwners.refl (h : Heap) : SameOwners h h := ⟨rfl, rfl, rfl⟩

theorem SameOwners.trans {a b c : Heap} (x : SameOwners a b) (y : SameOwners b c) :
    SameOwners a c :=
  ⟨y.1.trans x.1, y.2.1.trans x.2.1, y.2.2.trans x.2.2⟩

theorem weak_release_same (h : Heap) (v : weak_ptr) : SameOwners h (weak_ptr.release h v) := by
  cases hcb : v.cb <;> simp [weak_ptr.release, hcb, SameOwners, Heap.decWeak]

theorem weak_copy_same (h : Heap) (v : weak_ptr) : SameOwners h (weak_ptr.copy h v).1 := by
  cases hcb : v.cb <;> simp [weak_ptr.copy, hcb, SameOwners, Heap.incWeak]

theorem weak_copy_val (h : Heap) (v : weak_ptr) : (weak_ptr.copy h v).2 = v := by
  cases hcb : v.cb <;> simp [weak_ptr.copy, hcb]

theorem weak_fromShared_same (h : Heap) (s : shared_ptr) :
    SameOwners h (weak_ptr.fromShared h s).1 := by
  cases hcb : s.cb <;> simp [weak_ptr.fromShared, hcb, SameOwners, Heap.incWeak]

theorem weak_fromShared_val (h : Heap) (s : shared_ptr) :
    (weak_ptr.fromShared h s).2 = ⟨s.cb, s.ptr⟩ := by
  cases hcb : s.cb <;> simp [weak_ptr.fromShared, hcb]

theorem Inv.weak_step {lib : StdLib} {w : World} (I : Inv lib w) (h1 : Heap) (wk1 : List noweak_ptr)
    (hs : SameOwners w.heap h1) (hw : ∀ v ∈ wk1, WkOk w v) :
    Inv lib { w with heap := h1, wk := wk1 } := by
  obtain ⟨hn, hst, hm⟩ := hs
  constructor
  · intro c; show h1.strong c = _; rw [hst]; exact I.count c
  · intro c hc
    show h1.strong c = 0
    rw [hst]
    exact I.bound c (by rw [← hn]; exact hc)
  · intro v hv c hc
    show c < h1.next
    rw [hn]
    exact (hw v hv).1 c hc
  · exact I.unique
  · intro v hv; exact Coh_of_managed hm (I.nsPtr v hv)
  · intro v hv; exact Coh_of_managed hm (I.lkPtr v hv)
  · intro v hv; exact Coh_of_managed hm (hw v hv).2
  · exact AddrOk_of_le (fun c => by rw [hst]) hm I.addr

theorem Inv.wkOk {lib : StdLib} {w : World} (I : Inv lib w) : ∀ v ∈ w.wk, WkOk w v :=
  fun v hv => ⟨I.wkBound v hv, I.wkPtr v hv⟩

theorem WkOk_empty (w : World) : WkOk w ⟨weak_ptr.empty⟩ := by
  simp [WkOk, weak_ptr.empty, Coh]

theorem Inv.wkOk_get {lib : StdLib} {w : World} (I : Inv lib w) (k : Nat) : WkOk w (w.wkGet k) := by
  by_cases hk : k < w.wk.length
  · exact I.wkOk _ (getD_mem _ _ _ hk)
  · have : w.wk[k]? = none := by simp; omega
    simp only [World.wkGet, this, Option.getD_none]
    exact WkOk_empty w

theorem Inv.wkOk_of_ns {lib : StdLib} {w : World} (I : Inv lib w) (i : Nat) (hi : i < w.ns.length) :
    WkOk w ⟨⟨(w.nsGet i).sptr_.cb, (w.nsGet i).sptr_.ptr⟩⟩ :=
  ⟨I.nsLt _ (getD_mem _ _ _ hi), I.nsPtr _ (getD_mem _ _ _ hi)⟩

theorem Inv.wkOk_of_lk {lib : StdLib} {w : World} (I : Inv lib w) (l : Nat) (hl : l < w.lk.length) :
    WkOk w ⟨⟨(w.lkGet l).sptr_.cb, (w.lkGet l).sptr_.ptr⟩⟩ :=
  ⟨I.lkLt _ (getD_mem _ _ _ hl), I.lkPtr _ (getD_mem _ _ _ hl)⟩

theorem Inv.wk_default {lib : StdLib} {w : World} (I : Inv lib w) : Inv lib w.wk_default :=
  I.weak_step w.heap _ (SameOwners.refl _) (forall_mem_push _ _ _ I.wkOk (WkOk_empty w))

theorem Inv.wk_copy {lib : StdLib} {w : World} (I : Inv lib w) (k : Nat) :
    Inv lib (w.wk_copy k) := by
  refine I.weak_step _ _ (weak_copy_same _ _) (forall_mem_push _ _ _ I.wkOk ?_)
  simp only [noweak_ptr.copy_construct, weak_copy_val]
  exact I.wkOk_get k

theorem Inv.wk_from_noshared {lib : StdLib} {w : World} (I :
    Inv lib w) (i : Nat) (hi : i < w.ns.length) :
    Inv lib (w.wk_from_noshared i) := by
  refine I.weak_step _ _ (weak_fromShared_same _ _) (forall_mem_push _ _ _ I.wkOk ?_)
  simp only [noweak_ptr.from_noshared, weak_fromShared_val]
  exact I.wkOk_of_ns i hi

theorem Inv.wk_from_locked {lib : StdLib} {w : World} (I :
    Inv lib w) (l : Nat) (hl : l < w.lk.length) :
    Inv lib (w.wk_from_locked l) := by
  refine I.weak_step _ _ (weak_fromShared_same _ _) (forall_mem_push _ _ _ I.wkOk ?_)
  simp only [noweak_ptr.from_locked, weak_fromShared_val]
  exact I.wkOk_of_lk l hl

theorem Inv.wk_move_construct {lib : StdLib} {w : World} (I : Inv lib w) (k : Nat) :
    Inv lib (w.wk_move_construct k) :=
  I.weak_step w.heap _ (SameOwners.refl _)
    (forall_mem_push _ _ _ (forall_mem_set _ _ _ _ I.wkOk (WkOk_empty w)) (I.wkOk_get k))

theorem Inv.wk_assign {lib : StdLib} {w : World} (I : Inv lib w) (dst src : Nat) :
    Inv lib (w.wk_assign dst src) := by
  refine I.weak_step _ _ ((weak_copy_same _ _).trans (weak_release_same _ _))
    (forall_mem_set _ _ _ _ I.wkOk ?_)
  simp only [noweak_ptr.swap, noweak_ptr.copy_construct, weak_copy_val]
  exact I.wkOk_get src

theorem Inv.wk_move_assign {lib : StdLib} {w : World} (I : Inv lib w) (dst src : Nat) :
    Inv lib (w.wk_move_assign dst src) :=
  I.weak_step _ _ (weak_release_same _ _)
    (forall_mem_set _ _ _ _ (forall_mem_set _ _ _ _ I.wkOk (WkOk_empty w)) (I.wkOk_get src))

theorem Inv.wk_assign_noshared {lib : StdLib} {w : World} (I :
    Inv lib w) (dst i : Nat) (hi : i < w.ns.length) :
    Inv lib (w.wk_assign_noshared dst i) := by
  refine I.weak_step _ _ ((weak_fromShared_same _ _).trans (weak_release_same _ _))
    (forall_mem_set _ _ _ _ I.wkOk ?_)
  simp only [noweak_ptr.swap, noweak_ptr.from_noshared, weak_fromShared_val]
  exact I.wkOk_of_ns i hi

theorem Inv.wk_reset {lib : StdLib} {w : World} (I : Inv lib w) (k : Nat) :
    Inv lib (w.wk_reset k) :=
  I.weak_step _ _ (weak_release_same _ _) (forall_mem_set _ _ _ _ I.wkOk (WkOk_empty w))

theorem Inv.wk_swap {lib : StdLib} {w : World} (I : Inv lib w) (k j : Nat) :
    Inv lib (w.wk_swap k j) :=
  I.weak_step w.heap _ (SameOwners.refl _)
    (forall_mem_set _ _ _ _ (forall_mem_set _ _ _ _ I.wkOk (I.wkOk_get j)) (I.wkOk_get k))

theorem Inv.wk_destroy {lib : StdLib} {w : World} (I : Inv lib w) (k : Nat) :
    Inv lib (w.wk_destroy k) :=
  I.weak_step _ _ (weak_release_same _ _) (forall_mem_set _ _ _ _ I.wkOk (WkOk_empty w))

theorem Inv.step {lib : StdLib} {w : World} (I : Inv lib w) (op : Op) (h : op.ok w) :
    Inv lib (w.step lib op) := by
  cases op with
  | ns_default => exact I.ns_default
  | ns_construct p => exact I.ns_construct p h
  | make_noshared p => exact I.make_noshared p h
  | ns_move_construct src => exact I.ns_move_construct src h
  | ns_move_assign dst src => exact I.ns_move_assign dst src h.1 h.2
  | ns_assign_null i => exact I.ns_assign_null i h
  | ns_reset i p => exact I.ns_reset i p h.1 h.2
  | ns_swap i j => exact I.ns_swap i j h.1 h.2
  | ns_destroy i => exact I.ns_destroy i h
  | ns_dynamic_cast src isa => exact I.ns_dynamic_cast src _ h
  | wk_default => exact I.wk_default
  | wk_copy k => exact I.wk_copy k
  | wk_from_noshared i => exact I.wk_from_noshared i h
  | wk_from_locked l => exact I.wk_from_locked l h
  | wk_move_construct k => exact I.wk_move_construct k
  | wk_assign dst src => exact I.wk_assign dst src
  | wk_move_assign dst src => exact I.wk_move_assign dst src
  | wk_assign_noshared dst i => exact I.wk_assign_noshared dst i h.2
  | wk_reset k => exact I.wk_reset k
  | wk_swap k j => exact I.wk_swap k j
  | wk_destroy k => exact I.wk_destroy k
  | lk_construct k => exact I.lk_construct k h
  | lk_reset l p => exact I.lk_reset l p h.1 h.2
  | lk_destroy l => exact I.lk_destroy l h

theorem Reachable.inv {lib : StdLib} {w : World} (r : Reachable lib w) : Inv lib w := by
  induction r with
  | init => exact Inv.init lib
  | step w op _ h ih => exact ih.step op h

theorem Reachable.run {lib : StdLib} {w : World} (r : Reachable lib w) :
    ∀ ops : List Op, w.allOk lib ops → Reachable lib (w.run lib ops) := by
  intro ops
  induction ops generalizing w with
  | nil => intro _; exact r
  | cons op ops ih =>
    intro h
    exact ih (Reachable.step w op r h.1) h.2

theorem weakOnly_same (lib : StdLib) (w : World) (op : Op) (h : op.weakOnly = true) :
    SameOwners w.heap (w.step lib op).heap := by
  cases op <;> simp only [Op.weakOnly] at h <;> try exact absurd h (by decide)
  · exact SameOwners.refl _
  · exact weak_copy_same _ _
  · exact SameOwners.refl _
  · exact (weak_copy_same _ _).trans (weak_release_same _ _)
  · exact weak_release_same _ _
  · exact weak_release_same _ _
  · exact SameOwners.refl _
  · exact weak_release_same _ _

/-- With the overload taking shared_ptr&&, in every reachable state two distinct noshared_ptr
variables never hold the same control block and never return the same non-null address from
get(). -/
theorem unique_owner_with_rvalue (w : World) (r : Reachable .withRvalue w) :
    (∀ i j c, i < w.ns.length → j < w.ns.length → (w.nsGet i).sptr_.cb = some c →
      (w.nsGet j).sptr_.cb = some c → i = j) ∧
    (∀ i j, i < w.ns.length → j < w.ns.length → (w.nsGet i).get ≠ 0 →
      (w.nsGet i).get = (w.nsGet j).get → i = j) := by
  have I := r.inv
  have first : ∀ i j c, i < w.ns.length → j < w.ns.length → (w.nsGet i).sptr_.cb = some c →
      (w.nsGet j).sptr_.cb = some c → i = j := by
    intro i j c hi hj h1 h2
    by_contra hij
    have := two_le_refs nsCb c noshared_ptr.default ⟨shared_ptr.empty⟩ rfl w.ns i j hi hj hij
      h1 h2
    have := I.unique rfl c
    omega
  refine ⟨first, ?_⟩
  intro i j hi hj hne heq
  have mi := getD_mem noshared_ptr.default w.ns i hi
  have mj := getD_mem noshared_ptr.default w.ns j hj
  have ci := I.nsPtr _ mi
  have cj := I.nsPtr _ mj
  simp only [World.nsGet, noshared_ptr.get, shared_ptr.get] at hne heq
  cases hci : (w.ns[i]?.getD noshared_ptr.default).sptr_.cb with
  | none => rw [hci] at ci; exact absurd ci hne
  | some c =>
    cases hcj : (w.ns[j]?.getD noshared_ptr.default).sptr_.cb with
    | none => rw [hcj] at cj; exact absurd (heq.trans cj) hne
    | some d =>
      rw [hci] at ci
      rw [hcj] at cj
      simp only [Coh] at ci cj
      have pc : 0 < w.heap.strong c := by
        have := I.count c
        have := refs_pos_of_mem nsCb c w.ns _ mi hci
        omega
      have pd : 0 < w.heap.strong d := by
        have := I.count d
        have := refs_pos_of_mem nsCb d w.ns _ mj hcj
        omega
      have hcd : c = d := I.addr c d pc pd (by rw [← ci, ← cj]; exact heq) (by rw [← ci]; exact hne)
      subst hcd
      exact first i j c hi hj hci hcj

/-- C1 at its failing input: built against a library without the overload taking
shared_ptr&&, a matching dynamic_pointer_cast of the handle made by make_noshared leaves the
source Owning and returns an Owning result on the same control block at the same address:
two noshared_ptr are bound to one object, with a strong count of two. -/
theorem C1_matched_cast_two_owners :
    Reachable .constRefOnly
      (World.init.run .constRefOnly [.make_noshared 7, .ns_dynamic_cast 0 true]) ∧
    ((World.init.run .constRefOnly [.make_noshared 7, .ns_dynamic_cast 0 true]).nsGet 0).toBool
      = true ∧
    ((World.init.run .constRefOnly [.make_noshared 7, .ns_dynamic_cast 0 true]).nsGet 1).toBool
      = true ∧
    ((World.init.run .constRefOnly [.make_noshared 7, .ns_dynamic_cast 0 true]).nsGet 0).get
      = 7 ∧
    ((World.init.run .constRefOnly [.make_noshared 7, .ns_dynamic_cast 0 true]).nsGet 1).get
      = 7 ∧
    ((World.init.run .constRefOnly [.make_noshared 7, .ns_dynamic_cast 0 true]).nsGet 0).sptr_.cb
      = some 0 ∧
    ((World.init.run .constRefOnly [.make_noshared 7, .ns_dynamic_cast 0 true]).nsGet 1).sptr_.cb
      = some 0 ∧
    (World.init.run .constRefOnly [.make_noshared 7, .ns_dynamic_cast 0 true]).heap.strong 0
      = 2 :=
  ⟨Reachable.init.run _ (by decide), by decide, by decide, by decide, by decide, by decide,
    by decide, by decide⟩

/-- C2: after a noshared_ptr q is move-constructed from p, or another noshared_ptr q is
move-assigned from p, p is Empty (boolean test false, get() null) and q.get() is the address
p.get() returned before; p may be Owning or Empty. -/
theorem C2_moved_from_is_empty (lib : StdLib) (w : World) (dst src : Nat)
    (hs : src < w.ns.length) (hd : dst < w.ns.length) (hne : dst ≠ src) :
    (((w.step lib (.ns_move_construct src)).nsGet src).toBool = false ∧
      ((w.step lib (.ns_move_construct src)).nsGet src).get = 0 ∧
      ((w.step lib (.ns_move_construct src)).nsGet w.ns.length).get = (w.nsGet src).get) ∧
    (((w.step lib (.ns_move_assign dst src)).nsGet src).toBool = false ∧
      ((w.step lib (.ns_move_assign dst src)).nsGet src).get = 0 ∧
      ((w.step lib (.ns_move_assign dst src)).nsGet dst).get = (w.nsGet src).get) := by
  have hs1 : src < (w.ns.set src (⟨shared_ptr.empty⟩ : noshared_ptr)).length := by simpa using hs
  have hd1 : dst < (w.ns.set src (⟨shared_ptr.empty⟩ : noshared_ptr)).length := by simpa using hd
  have e1 : (w.step lib (.ns_move_construct src)).nsGet src = ⟨shared_ptr.empty⟩ := by
    show (w.ns.set src ⟨shared_ptr.empty⟩ ++ [_])[src]?.getD noshared_ptr.default = _
    rw [getD_push_lt _ _ _ _ hs1, getD_set, if_pos ⟨rfl, hs⟩]
  have e2 : (w.step lib (.ns_move_construct src)).nsGet w.ns.length
      = ⟨(w.nsGet src).sptr_⟩ := by
    show (w.ns.set src ⟨shared_ptr.empty⟩ ++ [_])[w.ns.length]?.getD noshared_ptr.default = _
    have := getD_push noshared_ptr.default (⟨(w.nsGet src).sptr_⟩ : noshared_ptr)
      (w.ns.set src ⟨shared_ptr.empty⟩)
    rw [List.length_set] at this
    exact this
  have e3 : (w.step lib (.ns_move_assign dst src)).nsGet src = ⟨shared_ptr.empty⟩ := by
    show ((w.ns.set src ⟨shared_ptr.empty⟩).set dst _)[src]?.getD noshared_ptr.default = _
    rw [getD_set, if_neg (fun h => hne h.1), getD_set, if_pos ⟨rfl, hs⟩]
  have e4 : (w.step lib (.ns_move_assign dst src)).nsGet dst = ⟨(w.nsGet src).sptr_⟩ := by
    show ((w.ns.set src ⟨shared_ptr.empty⟩).set dst _)[dst]?.getD noshared_ptr.default = _
    rw [getD_set, if_pos ⟨rfl, hd1⟩]
    rfl
  rw [e1, e2, e3, e4]
  simp [noshared_ptr.toBool, noshared_ptr.get, shared_ptr.toBool, shared_ptr.get,
    shared_ptr.empty]

/-- Witness of C2: an Owning handle at address 7 moved into a new handle and into an
existing one. -/
theorem C2_moved_from_is_empty_witness :
    ((World.init.run .withRvalue [.make_noshared 7, .ns_default]).nsGet 0).get = 7 ∧
    (((World.init.run .withRvalue [.make_noshared 7, .ns_default]).step .withRvalue
      (.ns_move_assign 1 0)).nsGet 0).toBool = false ∧
    (((World.init.run .withRvalue [.make_noshared 7, .ns_default]).step .withRvalue
      (.ns_move_assign 1 0)).nsGet 1).get = 7 :=
  ⟨by decide,
    (C2_moved_from_is_empty .withRvalue
      (World.init.run .withRvalue [.make_noshared 7, .ns_default]) 1 0
      (by decide) (by decide) (by decide)).2.1,
    (C2_moved_from_is_empty .withRvalue
      (World.init.run .withRvalue [.make_noshared 7, .ns_default]) 1 0
      (by decide) (by decide) (by decide)).2.2.2.trans (by decide)⟩

theorem expired_of_same {h h1 : Heap} (hs : SameOwners h h1) (v : noweak_ptr) :
    v.expired h1 = v.expired h := by
  obtain ⟨_, hst, _⟩ := hs
  simp only [noweak_ptr.expired, weak_ptr.expired, weak_ptr.use_count, hst]

theorem wk_copy_new (lib : StdLib) (w : World) (k : Nat) :
    (w.step lib (.wk_copy k)).wkGet w.wk.length = ⟨(w.wkGet k).wptr_⟩ := by
  show (w.wk ++ [_])[w.wk.length]?.getD noweak_ptr.default = _
  rw [getD_push]
  simp only [noweak_ptr.copy_construct, weak_copy_val]

theorem wk_from_noshared_new (lib : StdLib) (w : World) (i : Nat) :
    (w.step lib (.wk_from_noshared i)).wkGet w.wk.length
      = ⟨⟨(w.nsGet i).sptr_.cb, (w.nsGet i).sptr_.ptr⟩⟩ := by
  show (w.wk ++ [_])[w.wk.length]?.getD noweak_ptr.default = _
  rw [getD_push]
  simp only [noweak_ptr.from_noshared, weak_fromShared_val]

theorem wk_assign_at (lib : StdLib) (w : World) (dst src : Nat) (hd : dst < w.wk.length) :
    (w.step lib (.wk_assign dst src)).wkGet dst = ⟨(w.wkGet src).wptr_⟩ := by
  show (w.wk.set dst _)[dst]?.getD noweak_ptr.default = _
  rw [getD_set, if_pos ⟨rfl, hd⟩]
  simp only [noweak_ptr.swap, noweak_ptr.copy_construct, weak_copy_val]

/-- C3: in every reachable state, a noweak_ptr with a control block and a non-null stored
pointer (one derived, directly or through copies, from an Owning handle) is expired exactly
when no noshared_ptr holds that control block and no Valid locked_ptr holds it.  Every
noweak_ptr on the same control block gives the same answer, and operations on noweak_ptr
variables only (copies, assignments, resets, destructions) never change the answer of any
weak handle.  Derivation keeps the control block: a copy of the noweak_ptr, by construction
or by assignment, has its control block and stored pointer and answers as it does; a
noweak_ptr built from a noshared_ptr has the control block and stored pointer of that
noshared_ptr, and is not expired when the noshared_ptr is Owning. -/
theorem C3_expired_iff_no_strong_holder (lib : StdLib) (w : World) (r : Reachable lib w)
    (k c : Nat) (hk : k < w.wk.length) (hc : (w.wkGet k).wptr_.cb = some c)
    (hp : (w.wkGet k).wptr_.ptr ≠ 0) :
    ((w.wkGet k).expired w.heap = true ↔
      (∀ i, i < w.ns.length → (w.nsGet i).sptr_.cb ≠ some c) ∧
      (∀ l, l < w.lk.length →
        ¬ ((w.lkGet l).sptr_.cb = some c ∧ (w.lkGet l).toBool = true))) ∧
    (∀ j, (w.wkGet j).wptr_.cb = some c →
      (w.wkGet j).expired w.heap = (w.wkGet k).expired w.heap) ∧
    (∀ op : Op, op.weakOnly = true → ∀ v : noweak_ptr,
      v.expired (w.step lib op).heap = v.expired w.heap) ∧
    (((w.step lib (.wk_copy k)).wkGet w.wk.length).wptr_.cb = some c ∧
      ((w.step lib (.wk_copy k)).wkGet w.wk.length).wptr_.ptr = (w.wkGet k).wptr_.ptr ∧
      ((w.step lib (.wk_copy k)).wkGet w.wk.length).expired (w.step lib (.wk_copy k)).heap
        = (w.wkGet k).expired w.heap) ∧
    (∀ dst, dst < w.wk.length →
      ((w.step lib (.wk_assign dst k)).wkGet dst).wptr_.cb = some c ∧
      ((w.step lib (.wk_assign dst k)).wkGet dst).wptr_.ptr = (w.wkGet k).wptr_.ptr ∧
      ((w.step lib (.wk_assign dst k)).wkGet dst).expired (w.step lib (.wk_assign dst k)).heap
        = (w.wkGet k).expired w.heap) ∧
    (∀ i, i < w.ns.length →
      ((w.step lib (.wk_from_noshared i)).wkGet w.wk.length).wptr_.cb = (w.nsGet i).sptr_.cb ∧
      ((w.step lib (.wk_from_noshared i)).wkGet w.wk.length).wptr_.ptr = (w.nsGet i).get ∧
      ((w.nsGet i).toBool = true →
        ((w.step lib (.wk_from_noshared i)).wkGet w.wk.length).expired
          (w.step lib (.wk_from_noshared i)).heap = false)) := by
  have I := r.inv
  have hcoh := I.wkPtr _ (getD_mem noweak_ptr.default w.wk k hk)
  have hm : w.heap.managed c ≠ 0 := by
    simp only [World.wkGet] at hc hp
    rw [hc] at hcoh
    simp only [Coh] at hcoh
    rw [← hcoh]; exact hp
  have hexp : ∀ v : noweak_ptr, v.wptr_.cb = some c →
      (v.expired w.heap = true ↔ w.heap.strong c = 0) := by
    intro v hv
    simp [noweak_ptr.expired, weak_ptr.expired, weak_ptr.use_count, hv]
  refine ⟨?_, ?_, ?_, ?_, ?_, ?_⟩
  · rw [hexp _ hc]
    constructor
    · intro hz
      have hcount := I.count c
      constructor
      · intro i hi hcb
        have := refs_pos_of_mem nsCb c w.ns _ (getD_mem noshared_ptr.default w.ns i hi) hcb
        omega
      · intro l hl hcb
        have := refs_pos_of_mem lkCb c w.lk _
          (getD_mem (⟨shared_ptr.empty⟩ : locked_ptr) w.lk l hl) hcb.1
        omega
    · rintro ⟨hns, hlk⟩
      have hcount := I.count c
      have h1 : refs nsCb c w.ns = 0 := by
        by_contra hpos
        have hpos : 0 < refs nsCb c w.ns := by omega
        unfold refs at hpos
        rw [List.countP_pos_iff] at hpos
        obtain ⟨v, hv, hvc⟩ := hpos
        obtain ⟨i, hi, rfl⟩ := List.getElem_of_mem hv
        apply hns i hi
        simp only [World.nsGet, List.getElem?_eq_getElem hi, Option.getD_some]
        simpa [nsCb] using hvc
      have h2 : refs lkCb c w.lk = 0 := by
        by_contra hpos
        have hpos : 0 < refs lkCb c w.lk := by omega
        unfold refs at hpos
        rw [List.countP_pos_iff] at hpos
        obtain ⟨v, hv, hvc⟩ := hpos
        have hvc : v.sptr_.cb = some c := by simpa [lkCb] using hvc
        have hvcoh := I.lkPtr v hv
        rw [hvc] at hvcoh
        simp only [Coh] at hvcoh
        obtain ⟨l, hl, rfl⟩ := List.getElem_of_mem hv
        apply hlk l hl
        simp only [World.lkGet, List.getElem?_eq_getElem hl, Option.getD_some]
        refine ⟨hvc, ?_⟩
        simp only [locked_ptr.toBool, shared_ptr.toBool, hvcoh]
        simpa using hm
      omega
  · intro j hj
    have a := hexp _ hj
    have b := hexp _ hc
    cases h1 : (w.wkGet j).expired w.heap <;> cases h2 : (w.wkGet k).expired w.heap <;> simp_all
  · intro op hop v
    exact expired_of_same (weakOnly_same lib w op hop) v
  · rw [wk_copy_new]
    exact ⟨hc, rfl, expired_of_same (weakOnly_same lib w (.wk_copy k) rfl) _⟩
  · intro dst hd
    rw [wk_assign_at lib w dst k hd]
    exact ⟨hc, rfl, expired_of_same (weakOnly_same lib w (.wk_assign dst k) rfl) _⟩
  · intro i hi
    rw [wk_from_noshared_new]
    refine ⟨rfl, rfl, ?_⟩
    intro hb
    have hb1 : (w.nsGet i).sptr_.ptr ≠ 0 := by
      simpa [noshared_ptr.toBool, shared_ptr.toBool] using hb
    have mi := getD_mem noshared_ptr.default w.ns i hi
    have ci := I.nsPtr _ mi
    have hsame : SameOwners w.heap (w.step lib (.wk_from_noshared i)).heap :=
      weak_fromShared_same _ _
    rw [expired_of_same hsame]
    simp only [World.nsGet] at hb1 ⊢
    cases hci : (w.ns[i]?.getD noshared_ptr.default).sptr_.cb with
    | none => rw [hci] at ci; exact absurd ci hb1
    | some d =>
      have pd : 0 < w.heap.strong d := by
        have := I.count d
        have := refs_pos_of_mem nsCb d w.ns _ mi hci
        omega
      simp only [noweak_ptr.expired, weak_ptr.expired, weak_ptr.use_count]
      simp; omega

/-- Witness of C3: in castProgram the second observer is a copy of the first, the strong
handle was moved and cast and a promotion is alive; the copy is on the block of the object,
is not expired, and a further copy of it answers the same. -/
theorem C3_expired_iff_no_strong_holder_witness :
    Reachable .withRvalue (World.init.run .withRvalue castProgram) ∧
    ((World.init.run .withRvalue castProgram).wkGet 1).wptr_.cb = some 0 ∧
    ((World.init.run .withRvalue castProgram).wkGet 1).expired
      (World.init.run .withRvalue castProgram).heap = false ∧
    (((World.init.run .withRvalue castProgram).step .withRvalue (.wk_copy 1)).wkGet 2).wptr_.cb
      = some 0 ∧
    (((World.init.run .withRvalue castProgram).step .withRvalue (.wk_copy 1)).wkGet 2).expired
      ((World.init.run .withRvalue castProgram).step .withRvalue (.wk_copy 1)).heap = false :=
  ⟨Reachable.init.run _ (by decide), by decide, by decide,
    (C3_expired_iff_no_strong_holder .withRvalue (World.init.run .withRvalue castProgram)
      (Reachable.init.run _ (by decide)) 1 0 (by decide) (by decide)
      (by decide)).2.2.2.1.1,
    ((C3_expired_iff_no_strong_holder .withRvalue (World.init.run .withRvalue castProgram)
      (Reachable.init.run _ (by decide)) 1 0 (by decide) (by decide)
      (by decide)).2.2.2.1.2.2).trans (by decide)⟩

theorem lk_construct_new (lib : StdLib) (w : World) (k : Nat) :
    (w.step lib (.lk_construct k)).lkGet w.lk.length
      = ⟨(weak_ptr.lock w.heap (w.wkGet k).wptr_).2⟩ :=
  getD_push _ _ w.lk

/-- C4: in every reachable state, promoting a noweak_ptr that shares its control block with
an Owning noshared_ptr s gives a Valid locked_ptr whose get() is s.get(); more generally a
non-expired noweak_ptr with a non-null stored pointer is promoted to a Valid locked_ptr at
that pointer; an expired noweak_ptr is promoted to an Invalid locked_ptr (boolean test false,
get() null). -/
theorem C4_promotion (lib : StdLib) (w : World) (r : Reachable lib w) (k : Nat)
    (hk : k < w.wk.length) :
    (∀ i, i < w.ns.length → (w.nsGet i).toBool = true →
      (w.wkGet k).wptr_.cb = (w.nsGet i).sptr_.cb →
      ((w.step lib (.lk_construct k)).lkGet w.lk.length).toBool = true ∧
      ((w.step lib (.lk_construct k)).lkGet w.lk.length).get = (w.nsGet i).get) ∧
    ((w.wkGet k).expired w.heap = false → (w.wkGet k).wptr_.ptr ≠ 0 →
      ((w.step lib (.lk_construct k)).lkGet w.lk.length).toBool = true ∧
      ((w.step lib (.lk_construct k)).lkGet w.lk.length).get = (w.wkGet k).wptr_.ptr) ∧
    ((w.wkGet k).expired w.heap = true →
      ((w.step lib (.lk_construct k)).lkGet w.lk.length).toBool = false ∧
      ((w.step lib (.lk_construct k)).lkGet w.lk.length).get = 0) := by
  have I := r.inv
  rw [lk_construct_new]
  have alive : (w.wkGet k).expired w.heap = false → (w.wkGet k).wptr_.ptr ≠ 0 →
      (⟨(weak_ptr.lock w.heap (w.wkGet k).wptr_).2⟩ : locked_ptr).toBool = true ∧
      (⟨(weak_ptr.lock w.heap (w.wkGet k).wptr_).2⟩ : locked_ptr).get
        = (w.wkGet k).wptr_.ptr := by
    intro he hp
    rcases lock_cases w.heap (w.wkGet k).wptr_ with ⟨h1, _⟩ | ⟨c, _, _, _, h2⟩
    · simp only [noweak_ptr.expired] at he
      rw [he] at h1
      exact absurd h1 (by decide)
    · rw [h2]
      refine ⟨?_, rfl⟩
      simp only [locked_ptr.toBool, shared_ptr.toBool]
      simpa using hp
  refine ⟨?_, alive, ?_⟩
  · intro i hi hb hcb
    have mi := getD_mem noshared_ptr.default w.ns i hi
    have ci := I.nsPtr _ mi
    have ck := I.wkPtr _ (getD_mem noweak_ptr.default w.wk k hk)
    have hb1 : (w.nsGet i).sptr_.ptr ≠ 0 := by
      simpa [noshared_ptr.toBool, shared_ptr.toBool] using hb
    simp only [World.nsGet, World.wkGet] at hcb hb1 ⊢
    cases hci : (w.ns[i]?.getD noshared_ptr.default).sptr_.cb with
    | none => rw [hci] at ci; exact absurd ci hb1
    | some c =>
      rw [hci] at ci hcb
      rw [hcb] at ck
      simp only [Coh] at ci ck
      have pc : 0 < w.heap.strong c := by
        have := I.count c
        have := refs_pos_of_mem nsCb c w.ns _ mi hci
        omega
      have hne : (w.wkGet k).expired w.heap = false := by
        simp only [noweak_ptr.expired, weak_ptr.expired, weak_ptr.use_count, World.wkGet, hcb]
        simp; omega
      have hpk : (w.wkGet k).wptr_.ptr ≠ 0 := by
        simp only [World.wkGet]; rw [ck, ← ci]; exact hb1
      have := alive hne hpk
      simp only [World.wkGet] at this
      refine ⟨this.1, ?_⟩
      rw [this.2, ck, noshared_ptr.get, shared_ptr.get, ci]
  · intro he
    rcases lock_cases w.heap (w.wkGet k).wptr_ with ⟨_, h2⟩ | ⟨c, _, _, h1, _⟩
    · rw [h2]
      simp [locked_ptr.toBool, locked_ptr.get, shared_ptr.toBool, shared_ptr.get,
        shared_ptr.empty]
    · simp only [noweak_ptr.expired] at he
      rw [he] at h1
      exact absurd h1 (by decide)

/-- Witness of C4: the scenario of the specification; the first promotion is Valid at the
address of the strong handle, the promotion after the reset is Invalid. -/
theorem C4_promotion_witness :
    Reachable .withRvalue (World.init.run .withRvalue (scenario.take 2)) ∧
    ((World.init.run .withRvalue (scenario.take 3)).lkGet 0).toBool = true ∧
    ((World.init.run .withRvalue (scenario.take 3)).lkGet 0).get
      = ((World.init.run .withRvalue (scenario.take 2)).nsGet 0).get ∧
    ((World.init.run .withRvalue (scenario.take 5)).wkGet 0).expired (World.init.run .withRvalue (scenario.take 5)).heap
      = true ∧
    ((World.init.run .withRvalue scenario).lkGet 1).toBool = false :=
  ⟨Reachable.init.run _ (by decide),
    ((C4_promotion .withRvalue (World.init.run .withRvalue (scenario.take 2)) (Reachable.init.run _ (by decide)) 0
      (by decide)).1 0 (by decide) (by decide) (by decide)).1,
    ((C4_promotion .withRvalue (World.init.run .withRvalue (scenario.take 2)) (Reachable.init.run _ (by decide)) 0
      (by decide)).1 0 (by decide) (by decide) (by decide)).2,
    by decide,
    ((C4_promotion .withRvalue (World.init.run .withRvalue (scenario.take 5)) (Reachable.init.run _ (by decide)) 0
      (by decide)).2.2 (by decide)).1⟩

/-- C5 as stated fails, with either library: after a cast whose runtime type test fails, an
Owning source is still Owning (boolean test true, get() its address 7), only the result is
Empty. -/
theorem C5_failed_cast_keeps_source :
    ((((World.init.run .withRvalue [.make_noshared 7]).step .withRvalue
        (.ns_dynamic_cast 0 false)).nsGet 0).toBool = true ∧
      (((World.init.run .withRvalue [.make_noshared 7]).step .withRvalue
        (.ns_dynamic_cast 0 false)).nsGet 0).get = 7 ∧
      (((World.init.run .withRvalue [.make_noshared 7]).step .withRvalue
        (.ns_dynamic_cast 0 false)).nsGet 1).toBool = false) ∧
    ((((World.init.run .constRefOnly [.make_noshared 7]).step .constRefOnly
        (.ns_dynamic_cast 0 false)).nsGet 0).toBool = true ∧
      (((World.init.run .constRefOnly [.make_noshared 7]).step .constRefOnly
        (.ns_dynamic_cast 0 false)).nsGet 0).get = 7 ∧
      (((World.init.run .constRefOnly [.make_noshared 7]).step .constRefOnly
        (.ns_dynamic_cast 0 false)).nsGet 1).toBool = false) := by
  decide

/-- C5, amended: with either library, when the runtime type matches (source non-null and its
payload of the target type) the result is Owning, has the source's former address and holds
the source's control block; when it does not match the result is Empty and the source is
left as it was, still holding what it held, with the strong counts unchanged. -/
theorem C5_cast_source (lib : StdLib) (isa : Nat → Bool) (h : Heap) (src : noshared_ptr) :
    (src.get ≠ 0 → isa src.get = true →
      (dynamic_pointer_cast lib isa h src).2.1.toBool = true ∧
      (dynamic_pointer_cast lib isa h src).2.1.get = src.get ∧
      (dynamic_pointer_cast lib isa h src).2.1.sptr_.cb = src.sptr_.cb) ∧
    (¬ (src.get ≠ 0 ∧ isa src.get = true) →
      (dynamic_pointer_cast lib isa h src).2.1.toBool = false ∧
      (dynamic_pointer_cast lib isa h src).2.1.get = 0 ∧
      (dynamic_pointer_cast lib isa h src).2.2 = src ∧
      ∀ c, (dynamic_pointer_cast lib isa h src).1.strong c = h.strong c) := by
  constructor
  · intro h1 h2
    have hb : src.toBool = true := by
      simp only [noshared_ptr.get, shared_ptr.get] at h1
      simpa [noshared_ptr.toBool, shared_ptr.toBool] using h1
    rcases dynamic_pointer_cast_cases lib isa h src with
      ⟨_, _, a, _, _⟩ | ⟨_, _, a, _, _⟩ | ⟨c, _, _, _⟩
    · rw [a]; exact ⟨hb, rfl, rfl⟩
    · rw [a]; exact ⟨hb, rfl, rfl⟩
    · exact absurd ⟨h1, h2⟩ c
  · intro hn
    rcases dynamic_pointer_cast_cases lib isa h src with
      ⟨_, c, _, _, _⟩ | ⟨_, c, _, _, _⟩ | ⟨_, a, b, d⟩
    · exact absurd c hn
    · exact absurd c hn
    · rw [a, b]
      exact ⟨rfl, rfl, rfl, d⟩

/-- Witness of C5, amended: a matching cast of the handle at address 7 gives an Owning
result at that address, with either library. -/
theorem C5_cast_source_witness :
    (dynamic_pointer_cast .constRefOnly (fun _ => true)
        (World.init.run .constRefOnly [.make_noshared 7]).heap
        ((World.init.run .constRefOnly [.make_noshared 7]).nsGet 0)).2.1.get = 7 ∧
    (dynamic_pointer_cast .withRvalue (fun _ => true)
        (World.init.run .withRvalue [.make_noshared 7]).heap
        ((World.init.run .withRvalue [.make_noshared 7]).nsGet 0)).2.1.toBool = true :=
  ⟨((C5_cast_source .constRefOnly (fun _ => true)
      (World.init.run .constRefOnly [.make_noshared 7]).heap
      ((World.init.run .constRefOnly [.make_noshared 7]).nsGet 0)).1 (by decide) rfl).2.1.trans
      (by decide),
    ((C5_cast_source .withRvalue (fun _ => true)
      (World.init.run .withRvalue [.make_noshared 7]).heap
      ((World.init.run .withRvalue [.make_noshared 7]).nsGet 0)).1 (by decide) rfl).1⟩

/-- C6: with either library, a cast of a source that is null, or whose payload is not of the
target type, returns an Empty noshared_ptr (boolean test false, get() null, no control
block); the cast is a total function, it has no error result. -/
theorem C6_failed_cast_is_empty (lib : StdLib) (isa : Nat → Bool) (h : Heap)
    (src : noshared_ptr) (hn : src.get = 0 ∨ isa src.get = false) :
    (dynamic_pointer_cast lib isa h src).2.1.toBool = false ∧
    (dynamic_pointer_cast lib isa h src).2.1.get = 0 ∧
    (dynamic_pointer_cast lib isa h src).2.1 = noshared_ptr.default := by
  have hneg : ¬ (src.sptr_.ptr ≠ 0 ∧ isa src.sptr_.ptr = true) := by
    rintro ⟨a, b⟩
    rcases hn with hn | hn
    · exact a hn
    · simp only [noshared_ptr.get, shared_ptr.get] at hn
      rw [hn] at b
      exact absurd b (by decide)
  rcases dynamic_pointer_cast_cases lib isa h src with
    ⟨_, c, _, _, _⟩ | ⟨_, c, _, _, _⟩ | ⟨_, a, _, _⟩
  · exact absurd c hneg
  · exact absurd c hneg
  · rw [a]
    exact ⟨rfl, rfl, rfl⟩

/-- Witness of C6: an Owning source at address 7 whose payload is not of the target type. -/
theorem C6_failed_cast_is_empty_witness :
    ((World.init.run .constRefOnly [.make_noshared 7]).nsGet 0).toBool = true ∧
    (dynamic_pointer_cast .constRefOnly (fun _ => false)
        (World.init.run .constRefOnly [.make_noshared 7]).heap
        ((World.init.run .constRefOnly [.make_noshared 7]).nsGet 0)).2.1.toBool = false :=
  ⟨by decide,
    (C6_failed_cast_is_empty .constRefOnly (fun _ => false)
      (World.init.run .constRefOnly [.make_noshared 7]).heap
      ((World.init.run .constRefOnly [.make_noshared 7]).nsGet 0) (Or.inr rfl)).1⟩

/-- C7 as stated fails: a Valid locked_ptr (boolean test true after construction) answers
false after its own reset(). -/
theorem C7_reset_changes_validity :
    ((World.init.run .withRvalue
      [.make_noshared 7, .wk_from_noshared 0, .lk_construct 0]).lkGet 0).toBool = true ∧
    (((World.init.run .withRvalue
      [.make_noshared 7, .wk_from_noshared 0, .lk_construct 0]).step .withRvalue
      (.lk_reset 0 0)).lkGet 0).toBool = false ∧
    ((World.init.run .constRefOnly
      [.make_noshared 7, .wk_from_noshared 0, .lk_construct 0]).lkGet 0).toBool = true ∧
    (((World.init.run .constRefOnly
      [.make_noshared 7, .wk_from_noshared 0, .lk_construct 0]).step .constRefOnly
      (.lk_reset 0 0)).lkGet 0).toBool = false := by
  decide

/-- C7, amended: the boolean test and get() of a locked_ptr are unchanged by every operation
other than a reset or the destruction of that locked_ptr itself, whatever happens to other
handles or to the object; after its own reset(p) the boolean test is true exactly when p is
not null and get() is p. -/
theorem C7_validity_fixed_except_reset (lib : StdLib) (w : World) (op : Op) (l p : Nat)
    (hl : l < w.lk.length) :
    ((∀ q, op ≠ .lk_reset l q) → op ≠ .lk_destroy l →
      ((w.step lib op).lkGet l).toBool = (w.lkGet l).toBool ∧
      ((w.step lib op).lkGet l).get = (w.lkGet l).get) ∧
    ((w.step lib (.lk_reset l p)).lkGet l).toBool = (p != 0) ∧
    ((w.step lib (.lk_reset l p)).lkGet l).get = p := by
  refine ⟨?_, ?_, ?_⟩
  · intro h1 h2
    have key : (w.step lib op).lkGet l = w.lkGet l := by
      cases op with
      | lk_construct k => exact getD_push_lt _ _ _ _ hl
      | lk_reset l1 q =>
        have hne : l1 ≠ l := fun e => h1 q (by rw [e])
        show (w.lk.set l1 _)[l]?.getD _ = _
        rw [getD_set, if_neg (fun h => hne h.1)]
        rfl
      | lk_destroy l1 =>
        have hne : l1 ≠ l := fun e => h2 (by rw [e])
        show (w.lk.set l1 _)[l]?.getD _ = _
        rw [getD_set, if_neg (fun h => hne h.1)]
        rfl
      | _ => rfl
    rw [key]
    exact ⟨rfl, rfl⟩
  · show ((w.lk.set l _)[l]?.getD _).toBool = _
    rw [getD_set, if_pos ⟨rfl, hl⟩]
    rfl
  · show ((w.lk.set l _)[l]?.getD _).get = _
    rw [getD_set, if_pos ⟨rfl, hl⟩]
    rfl

/-- Witness of C7, amended: the Valid locked_ptr of a live object stays Valid when the strong
handle is reset. -/
theorem C7_validity_fixed_except_reset_witness :
    ((World.init.run .withRvalue
      [.make_noshared 7, .wk_from_noshared 0, .lk_construct 0]).lkGet 0).toBool = true ∧
    (((World.init.run .withRvalue
      [.make_noshared 7, .wk_from_noshared 0, .lk_construct 0]).step .withRvalue
      (.ns_reset 0 0)).lkGet 0).toBool = true :=
  ⟨by decide,
    (((C7_validity_fixed_except_reset .withRvalue
      (World.init.run .withRvalue [.make_noshared 7, .wk_from_noshared 0, .lk_construct 0])
      (.ns_reset 0 0) 0 0 (by decide)).1 (by intro q h; cases h) (by decide)).1).trans
      (by decide)⟩

/-- C8: owner_before is a strict weak ordering on control blocks, wherever the control blocks
live: irreflexive, asymmetric, transitive, with a transitive incomparability; two noweak_ptr
on the same control block (observing the same managed object) are not ordered either way,
whatever their stored pointers; and when distinct control blocks have distinct non-null
addresses, two noweak_ptr are unordered exactly when they have the same control block. -/
theorem C8_owner_before_strict_weak (addr : Nat → Nat) (a b c : noweak_ptr) :
    a.owner_before addr a = false ∧
    (a.owner_before addr b = true → b.owner_before addr a = false) ∧
    (a.owner_before addr b = true → b.owner_before addr c = true →
      a.owner_before addr c = true) ∧
    (a.wptr_.cb = b.wptr_.cb →
      a.owner_before addr b = false ∧ b.owner_before addr a = false) ∧
    (a.owner_before addr b = false → b.owner_before addr a = false →
      b.owner_before addr c = false → c.owner_before addr b = false →
      a.owner_before addr c = false ∧ c.owner_before addr a = false) ∧
    ((∀ x y, addr x = addr y → x = y) → (∀ x, addr x ≠ 0) →
      (a.owner_before addr b = false ∧ b.owner_before addr a = false ↔
        a.wptr_.cb = b.wptr_.cb)) := by
  obtain ⟨⟨ca, pa⟩⟩ := a
  obtain ⟨⟨cb, pb⟩⟩ := b
  obtain ⟨⟨cc, pc⟩⟩ := c
  simp only [noweak_ptr.owner_before, weak_ptr.owner_before, decide_eq_true_eq,
    decide_eq_false_iff_not, Nat.not_lt]
  refine ⟨le_refl _, fun h => by omega, fun h1 h2 => by omega, ?_, fun _ _ _ _ => by omega, ?_⟩
  · intro h
    rw [h]
    exact ⟨le_refl _, le_refl _⟩
  · intro hinj hnz
    constructor
    · rintro ⟨h1, h2⟩
      have e : weak_ptr.blockAddr addr ca = weak_ptr.blockAddr addr cb := by omega
      cases ca with
      | none =>
        cases cb with
        | none => rfl
        | some y => exact absurd e.symm (hnz y)
      | some x =>
        cases cb with
        | none => exact absurd e (hnz x)
        | some y => rw [hinj x y e]
    · intro h
      rw [h]
      exact ⟨le_refl _, le_refl _⟩

/-- Witness of C8: with later control blocks at lower addresses, the observers of two
different objects are ordered one way only, and two observers of the same object are not
ordered. -/
theorem C8_owner_before_strict_weak_witness :
    noweak_ptr.owner_before (fun x => 1000 - 16 * x) ⟨⟨some 1, 9⟩⟩ ⟨⟨some 0, 7⟩⟩ = true ∧
    noweak_ptr.owner_before (fun x => 1000 - 16 * x) ⟨⟨some 0, 7⟩⟩ ⟨⟨some 1, 9⟩⟩ = false ∧
    noweak_ptr.owner_before (fun x => 1000 - 16 * x) ⟨⟨some 0, 7⟩⟩ ⟨⟨some 0, 8⟩⟩ = false :=
  ⟨by decide,
    (C8_owner_before_strict_weak (fun x => 1000 - 16 * x) ⟨⟨some 1, 9⟩⟩ ⟨⟨some 0, 7⟩⟩
      ⟨⟨none, 0⟩⟩).2.1 (by decide),
    ((C8_owner_before_strict_weak (fun x => 1000 - 16 * x) ⟨⟨some 0, 7⟩⟩ ⟨⟨some 0, 8⟩⟩
      ⟨⟨none, 0⟩⟩).2.2.2.1 rfl).1⟩

/-- C9: in every reachable state a noshared_ptr and a locked_ptr that hold the same control
block (refer to the same object) compare equal in both orders and are not unequal; and for
every noshared_ptr or locked_ptr the comparison with nullptr, in either order, is true
exactly when the boolean test of the handle is false. -/
theorem C9_equality (lib : StdLib) (w : World) (r : Reachable lib w) (i l c : Nat)
    (hi : i < w.ns.length) (hl : l < w.lk.length) (hs : (w.nsGet i).sptr_.cb = some c)
    (hk : (w.lkGet l).sptr_.cb = some c) (x : noshared_ptr) (y : locked_ptr) :
    (noshared_eq_locked (w.nsGet i) (w.lkGet l) = true ∧
      locked_eq_noshared (w.lkGet l) (w.nsGet i) = true ∧
      noshared_ne_locked (w.nsGet i) (w.lkGet l) = false ∧
      locked_ne_noshared (w.lkGet l) (w.nsGet i) = false) ∧
    ((noshared_eq_null x = true ↔ x.toBool = false) ∧
      (null_eq_noshared x = true ↔ x.toBool = false) ∧
      (noshared_ne_null x = true ↔ x.toBool = true) ∧
      (null_ne_noshared x = true ↔ x.toBool = true) ∧
      (locked_eq_null y = true ↔ y.toBool = false) ∧
      (null_eq_locked y = true ↔ y.toBool = false) ∧
      (locked_ne_null y = true ↔ y.toBool = true) ∧
      (null_ne_locked y = true ↔ y.toBool = true)) := by
  have I := r.inv
  have ci := I.nsPtr _ (getD_mem noshared_ptr.default w.ns i hi)
  have cl := I.lkPtr _ (getD_mem (⟨shared_ptr.empty⟩ : locked_ptr) w.lk l hl)
  simp only [World.nsGet, World.lkGet] at hs hk
  rw [hs] at ci
  rw [hk] at cl
  simp only [Coh] at ci cl
  have e : (w.nsGet i).get = (w.lkGet l).get := by
    simp only [World.nsGet, World.lkGet, noshared_ptr.get, locked_ptr.get, shared_ptr.get]
    rw [ci, cl]
  constructor
  · simp [noshared_eq_locked, locked_eq_noshared, noshared_ne_locked, locked_ne_noshared, e]
  · simp [noshared_eq_null, null_eq_noshared, noshared_ne_null, null_ne_noshared,
      locked_eq_null, null_eq_locked, locked_ne_null, null_ne_locked]

/-- Witness of C9: in castProgram the owning handle and the live promotion compare equal,
and the moved-from handle equals nullptr. -/
theorem C9_equality_witness :
    Reachable .withRvalue (World.init.run .withRvalue castProgram) ∧
    noshared_eq_locked ((World.init.run .withRvalue castProgram).nsGet 2)
      ((World.init.run .withRvalue castProgram).lkGet 0) = true ∧
    (noshared_eq_null ((World.init.run .withRvalue castProgram).nsGet 0) = true ↔
      ((World.init.run .withRvalue castProgram).nsGet 0).toBool = false) :=
  ⟨Reachable.init.run _ (by decide),
    (C9_equality .withRvalue (World.init.run .withRvalue castProgram) (Reachable.init.run _ (by decide)) 2 0 0
      (by decide) (by decide) (by decide) (by decide)
      ((World.init.run .withRvalue castProgram).nsGet 0) ((World.init.run .withRvalue castProgram).lkGet 0)).1.1,
    (C9_equality .withRvalue (World.init.run .withRvalue castProgram) (Reachable.init.run _ (by decide)) 2 0 0
      (by decide) (by decide) (by decide) (by decide)
      ((World.init.run .withRvalue castProgram).nsGet 0) ((World.init.run .withRvalue castProgram).lkGet 0)).2.1⟩

/-- C10 at its failing input, with either library: a default-constructed noshared_ptr on
which reset() was called is Empty, yet the noweak_ptr built from it is not expired while the
locked_ptr promoted from it is Invalid; the noweak_ptr built from the same handle before the
reset() is expired. -/
theorem C10_reset_handle_not_expired (lib : StdLib) :
    Reachable lib (World.init.run lib [.ns_default, .ns_reset 0 0, .wk_from_noshared 0]) ∧
    ((World.init.run lib [.ns_default, .ns_reset 0 0, .wk_from_noshared 0]).nsGet 0).toBool
      = false ∧
    ((World.init.run lib [.ns_default, .ns_reset 0 0, .wk_from_noshared 0]).wkGet 0).expired
      (World.init.run lib [.ns_default, .ns_reset 0 0, .wk_from_noshared 0]).heap = false ∧
    ((World.init.run lib
      [.ns_default, .ns_reset 0 0, .wk_from_noshared 0, .lk_construct 0]).lkGet 0).toBool
      = false ∧
    ((World.init.run lib [.ns_default, .wk_from_noshared 0]).wkGet 0).expired
      (World.init.run lib [.ns_default, .wk_from_noshared 0]).heap = true := by
  cases lib
  · exact ⟨Reachable.init.run _ (by decide), by decide, by decide, by decide, by decide⟩
  · exact ⟨Reachable.init.run _ (by decide), by decide, by decide, by decide, by decide⟩

end nstd
